import Mathlib

/-!
Verification development for the ffstudios chat-bot core: a shallow
embedding, in Lean 4, of the slot-filling conversation state
(`src/bot/conversation_state.py`), the unit normalizer
(`src/services/nlp_service.py`), the fuzzy matcher
(`src/services/fuzzy_matcher.py`, including the parts of Python's
`difflib.SequenceMatcher` that it calls), the inventory service
(`src/services/inventory_service.py`) and the smart inventory service
(`src/services/smart_inventory_service.py`).

Modelling conventions:
* Python floats and `Decimal` quantities are modelled as `ℚ`; the numeric
  literals `0.6`, `0.7`, `0.9` of the source become the rationals
  `6/10`, `7/10`, `9/10`.
* Python `None`-able values are `Option`s; a raised exception that a caller
  catches is an `Except.error` carrying the exception message.
* The database is modelled as an explicit list of `Inventory` rows threaded
  through every operation; a SQLAlchemy query is a pure function of that
  list.  `session.rollback()` on an exception (see `db.get_db_session`)
  means an operation that raises leaves the list unchanged.
* Python `str.lower`/`str.strip` are the character-table functions
  `pyLowerStr`/`pyStrip` below; rendering of numbers inside user-visible
  messages is abstracted by a single formatting function `fmtQ`.
-/

namespace FFS

/-- A dynamically-typed Python value as it occurs in parsed-field
dictionaries: either a string or a number. -/
inductive Value where
  | str (s : String)
  | num (q : ℚ)
deriving DecidableEq, Repr

/-- Python `str.lower` restricted to ASCII plus accented Latin capitals. -/
def pyLower (c : Char) : Char :=
  if c = 'Á' then 'á' else if c = 'É' then 'é' else if c = 'Í' then 'í'
  else if c = 'Ó' then 'ó' else if c = 'Ú' then 'ú' else if c = 'Ü' then 'ü'
  else if c = 'Ñ' then 'ñ' else if c = 'À' then 'à' else if c = 'È' then 'è'
  else if c = 'Ì' then 'ì' else if c = 'Ò' then 'ò' else if c = 'Ù' then 'ù'
  else if c = 'Â' then 'â' else if c = 'Ê' then 'ê' else if c = 'Î' then 'î'
  else if c = 'Ô' then 'ô' else if c = 'Û' then 'û' else if c = 'Ä' then 'ä'
  else if c = 'Ë' then 'ë' else if c = 'Ï' then 'ï' else if c = 'Ö' then 'ö'
  else if c = 'Ç' then 'ç' else if c = 'Ã' then 'ã' else if c = 'Õ' then 'õ'
  else c.toLower

/-- The whitespace class of Python's `str`-pattern `\s` (and of
`str.strip`/`str.split`). -/
def isPySpace (c : Char) : Bool :=
  c ∈ ['\u0020', '\u0009', '\u000a', '\u000b', '\u000c', '\u000d', '\u001c', '\u001d',
       '\u001e', '\u001f', '\u0085', '\u00a0', '\u1680', '\u2000', '\u2001', '\u2002',
       '\u2003', '\u2004', '\u2005', '\u2006', '\u2007', '\u2008', '\u2009', '\u200a',
       '\u2028', '\u2029', '\u202f', '\u205f', '\u3000']

/-- Python `str.lower` on a whole string. -/
def pyLowerStr (s : String) : String :=
  String.mk (s.data.map pyLower)

/-- Python `str.strip()`: drop leading and trailing whitespace. -/
def pyStrip (s : String) : String :=
  String.mk (((s.data.dropWhile isPySpace).reverse.dropWhile isPySpace).reverse)

/-! ## `src/bot/conversation_state.py` -/

/-- `conversation_state.PendingAction`: a dataclass holding one partial
action.  The nine optional data fields keep their Python names; the
`last_updated`-style bookkeeping of other models does not exist here. -/
structure PendingAction where
  action : String
  original_message : String
  ingredient_name : Option Value := none
  quantity : Option Value := none
  unit : Option Value := none
  cost : Option Value := none
  currency : Option Value := none
  provider : Option Value := none
  payment_method : Option Value := none
  expense_category : Option Value := none
  reason : Option Value := none
  missing_fields : List String := []
deriving DecidableEq, Repr

/-- The attribute names `merge_with_supplement` can write through
`setattr`: the nine optional data fields of `PendingAction`.  (Supplement
dictionaries are produced by field extraction and only ever carry these
keys; `hasattr(self, field)` is true exactly for declared attributes.) -/
def mergeableField (f : String) : Bool :=
  f ∈ ["ingredient_name", "quantity", "unit", "cost", "currency",
       "provider", "payment_method", "expense_category", "reason"]

/-- `setattr(pending, f, v)` for the mergeable attribute names; any other
name leaves the record unchanged. -/
def PendingAction.setField (p : PendingAction) (f : String) (v : Value) : PendingAction :=
  if f = "ingredient_name" then { p with ingredient_name := some v }
  else if f = "quantity" then { p with quantity := some v }
  else if f = "unit" then { p with unit := some v }
  else if f = "cost" then { p with cost := some v }
  else if f = "currency" then { p with currency := some v }
  else if f = "provider" then { p with provider := some v }
  else if f = "payment_method" then { p with payment_method := some v }
  else if f = "expense_category" then { p with expense_category := some v }
  else if f = "reason" then { p with reason := some v }
  else p

/-- `getattr(pending, f)` for the mergeable attribute names. -/
def PendingAction.getField (p : PendingAction) (f : String) : Option Value :=
  if f = "ingredient_name" then p.ingredient_name
  else if f = "quantity" then p.quantity
  else if f = "unit" then p.unit
  else if f = "cost" then p.cost
  else if f = "currency" then p.currency
  else if f = "provider" then p.provider
  else if f = "payment_method" then p.payment_method
  else if f = "expense_category" then p.expense_category
  else if f = "reason" then p.reason
  else none

/-- `PendingAction.merge_with_supplement`: for every `(field, value)` item
of the supplement dictionary (modelled as an association list in
iteration order), if the value is not `None` and the field is a declared
attribute, overwrite the attribute and drop the field name from
`missing_fields` (Python `list.remove` = `List.erase`: first occurrence
only, no-op when absent). -/
def mergeStep (acc : PendingAction) (fv : String × Option Value) : PendingAction :=
  match fv.2 with
  | none => acc
  | some v =>
    if mergeableField fv.1 then
      let acc' := acc.setField fv.1 v
      { acc' with missing_fields := acc'.missing_fields.erase fv.1 }
    else acc

def PendingAction.merge_with_supplement (p : PendingAction)
    (supplement : List (String × Option Value)) : PendingAction :=
  supplement.foldl mergeStep p

/-- `conversation_state.get_required_fields`. -/
def get_required_fields (action : String) : List String :=
  if action = "register_purchase" then
    ["ingredient_name", "quantity", "unit", "cost", "provider", "payment_method"]
  else if action = "register_expense" then
    ["expense_category", "cost", "provider", "payment_method"]
  else if action = "register_usage" then
    ["ingredient_name", "quantity"]
  else []

/-- The per-field missing test of `conversation_state.check_missing_fields`:
`None`, a blank string, or — for the `cost` field — the number `0`. -/
def isMissingValue (field : String) (value : Option Value) : Bool :=
  match value with
  | none => true
  | some (.str s) => pyStrip s = ""
  | some (.num q) => field = "cost" && q = 0

/-- `conversation_state.check_missing_fields`: the required fields whose
entry in the parsed-data dictionary (modelled as `String → Option Value`,
Python `dict.get`) is missing. -/
def check_missing_fields (action : String) (parsed : String → Option Value) : List String :=
  (get_required_fields action).filter (fun f => isMissingValue f (parsed f))

/-- The `field_translations` table of
`conversation_state.format_missing_fields_prompt` (`dict.get(f, f)`). -/
def field_translations (f : String) : String :=
  if f = "ingredient_name" then "nombre del producto"
  else if f = "quantity" then "cantidad"
  else if f = "unit" then "unidad de medida"
  else if f = "cost" then "precio"
  else if f = "provider" then "proveedor"
  else if f = "payment_method" then "medio de pago"
  else if f = "expense_category" then "categoría del gasto"
  else if f = "reason" then "motivo"
  else f

/-- `conversation_state.format_missing_fields_prompt`.  The source
branches on `len(translated) == 1`, `== 2`, and an `else` that evaluates
`translated[-1]`; on the empty list that indexing raises `IndexError`,
modelled here as `none`. -/
def format_missing_fields_prompt (missing_fields : List String) : Option String :=
  let translated := missing_fields.map field_translations
  match translated with
  | [t] => some ("Por favor indícame: " ++ t)
  | [t₁, t₂] => some ("Por favor indícame: " ++ t₁ ++ " y " ++ t₂)
  | [] => none
  | ts => some ("Por favor indícame: " ++ String.intercalate ", " ts.dropLast
                ++ " y " ++ (ts.getLast?.getD ""))

/-! ## `NLPService.normalize_unit` (`src/services/nlp_service.py`) -/

/-- `NLPService.normalize_unit`.  A falsy (empty) unit becomes `"pcs"`;
otherwise the unit token is lowercased and stripped and looked up in the
conversion tables; an unknown token is returned as the lowercased,
stripped token with the quantity unchanged. -/
def normalize_unit (unit : String) (quantity : ℚ) : ℚ × String :=
  if unit = "" then (quantity, "pcs")
  else
    let u := pyStrip (pyLowerStr unit)
    if u ∈ ["g", "gram", "grams", "gramo", "gramos"] then
      (quantity / 1000, "kg")
    else if u ∈ ["kg", "kilogram", "kilograms", "kilo", "kilos", "kilogramo", "kilogramos"] then
      (quantity, "kg")
    else if u ∈ ["ml", "milliliter", "milliliters", "mililitro", "mililitros"] then
      (quantity / 1000, "liters")
    else if u ∈ ["l", "liter", "liters", "litre", "litres", "litro", "litros"] then
      (quantity, "liters")
    else if u ∈ ["pcs", "pieces", "piece", "pc", "units", "unit", "pieza", "piezas",
                 "unidad", "unidades"] then
      (quantity, "pcs")
    else (quantity, u)

/-! ## `FuzzyMatcher.normalize_string` (`src/services/fuzzy_matcher.py`)

The source computes `text.lower()`, decomposes with
`unicodedata.normalize('NFD', …)`, drops combining marks (category `Mn`),
drops every character outside `[a-z0-9\s]`, collapses whitespace runs with
`re.sub(r'\s+', ' ', …)` and strips.  Unicode case mapping and NFD are
modelled by explicit tables covering ASCII plus the accented Latin letters
of the bot's Spanish domain; every other character maps to itself, which
is exact for every character that can survive the `[a-z0-9\s]` filter. -/

/-- `unicodedata.normalize('NFD', ·)` on one (already lowercased)
character: accented Latin letters decompose into base letter plus a
combining mark; everything else is NFD-inert. -/
def nfdChar (c : Char) : List Char :=
  if c = 'á' then ['a', '\u0301']
  else if c = 'é' then ['e', '\u0301']
  else if c = 'í' then ['i', '\u0301']
  else if c = 'ó' then ['o', '\u0301']
  else if c = 'ú' then ['u', '\u0301']
  else if c = 'ü' then ['u', '\u0308']
  else if c = 'ñ' then ['n', '\u0303']
  else if c = 'à' then ['a', '\u0300']
  else if c = 'è' then ['e', '\u0300']
  else if c = 'ì' then ['i', '\u0300']
  else if c = 'ò' then ['o', '\u0300']
  else if c = 'ù' then ['u', '\u0300']
  else if c = 'â' then ['a', '\u0302']
  else if c = 'ê' then ['e', '\u0302']
  else if c = 'î' then ['i', '\u0302']
  else if c = 'ô' then ['o', '\u0302']
  else if c = 'û' then ['u', '\u0302']
  else if c = 'ä' then ['a', '\u0308']
  else if c = 'ë' then ['e', '\u0308']
  else if c = 'ï' then ['i', '\u0308']
  else if c = 'ö' then ['o', '\u0308']
  else if c = 'ç' then ['c', '\u0327']
  else if c = 'ã' then ['a', '\u0303']
  else if c = 'õ' then ['o', '\u0303']
  else [c]

/-- Category `Mn` (combining diacritical marks, U+0300–U+036F); exactly
the marks `nfdChar` can emit live in this block. -/
def isMn (c : Char) : Bool :=
  0x300 ≤ c.toNat && c.toNat ≤ 0x36F

/-- The character class `[a-z0-9\s]` kept by the cleaning regex, by
codepoint: `a`–`z` is 97–122 and `0`–`9` is 48–57. -/
def isKeep (c : Char) : Bool :=
  (97 ≤ c.toNat && c.toNat ≤ 122) || (48 ≤ c.toNat && c.toNat ≤ 57) || isPySpace c

/-- One step of splitting into maximal non-whitespace runs. -/
def wordsAux (c : Char) (acc : List (List Char)) : List (List Char) :=
  if isPySpace c then [] :: acc
  else
    match acc with
    | [] => [[c]]
    | w :: ws => (c :: w) :: ws

/-- Python `str.split()` (on whitespace, dropping empty runs). -/
def wordsOf (l : List Char) : List (List Char) :=
  (l.foldr wordsAux []).filter (fun w => !w.isEmpty)

/-- The lowering, decomposing, mark-stripping and cleaning pipeline of
`FuzzyMatcher.normalize_string` before its whitespace collapse. -/
def cleanedOf (text : String) : List Char :=
  (((text.data.map pyLower).flatMap nfdChar).filter (fun c => !isMn c)).filter isKeep

/-- `FuzzyMatcher.normalize_string`.  The final
`re.sub(r'\s+', ' ', cleaned).strip()` of the source is the classic
`" ".join(cleaned.split())`: every maximal whitespace run becomes one
space and a leading/trailing run disappears with the strip. -/
def normalize_string (text : String) : String :=
  if text = "" then ""
  else String.mk (List.intercalate [' '] (wordsOf (cleanedOf text)))

/-! ## `difflib.SequenceMatcher` (as used by `FuzzyMatcher`)

`FuzzyMatcher.calculate_similarity` calls
`SequenceMatcher(None, norm1, norm2).ratio()`.  With `isjunk=None` the
junk set `bjunk` is empty, so the two `isbjunk`-guarded extension loops
of `find_longest_match` never run and are omitted; `autojunk` (popular
elements are dropped from `b2j` when `len(b) >= 200`) is kept. -/

/-- The ascending list of indices at which `c` occurs in `b`. -/
def positionsOf (b : List Char) (c : Char) : List Nat :=
  (List.range b.length).filter (fun j => b.getD j ' ' == c)

/-- The `b2j` occurrence map built by `SequenceMatcher.__chain_b`:
with `autojunk` and `len(b) >= 200`, characters occurring more than
`len(b) // 100 + 1` times are "popular" and dropped from the map. -/
def b2j (b : List Char) (c : Char) : List Nat :=
  let n := b.length
  if 200 ≤ n && n / 100 + 1 < b.count c then [] else positionsOf b c

/-- Whether `c` is a "popular" element dropped by `autojunk`
(`SequenceMatcher.__chain_b`: `len(b) >= 200` and more than
`len(b) // 100 + 1` occurrences). -/
def isPopular (b : List Char) (c : Char) : Bool :=
  200 ≤ b.length && b.length / 100 + 1 < b.count c

/-- Length of the maximal run of consecutive non-popular positions of
`b` ending at index `i`: the value the diagonal `j2len` entry reaches at
row `i` of `find_longest_match` when the two sequences are equal. -/
def runLen (b : List Char) : Nat → Nat
  | 0 => if isPopular b (b.getD 0 ' ') then 0 else 1
  | i + 1 => if isPopular b (b.getD (i + 1) ' ') then 0 else runLen b i + 1

/-- `runLen` at the previous row (`0` at row `0`). -/
def prevRun (b : List Char) (i : Nat) : Nat :=
  if i = 0 then 0 else runLen b (i - 1)

/-- The inner `for j in b2j.get(a[i], [])` loop of
`SequenceMatcher.find_longest_match`: `continue` below `blo`, `break` at
`bhi`, and otherwise extend the run ending at `(i, j)`
(`k = newj2len[j] = j2len.get(j-1, 0) + 1`; `j2len.get(-1, 0)` is `0`).
State: the next row `newj2len` and the best `(besti, bestj, bestsize)`. -/
def innerLoop (blo bhi i : Nat) (j2len : Nat → Nat) :
    List Nat → (Nat → Nat) → (Nat × Nat × Nat) → ((Nat → Nat) × (Nat × Nat × Nat))
  | [], newj2len, best => (newj2len, best)
  | j :: js, newj2len, best =>
    if j < blo then innerLoop blo bhi i j2len js newj2len best
    else if bhi ≤ j then (newj2len, best)
    else
      let k := (if j = 0 then 0 else j2len (j - 1)) + 1
      let newj2len' := fun x => if x = j then k else newj2len x
      let best' := if best.2.2 < k then (i + 1 - k, j + 1 - k, k) else best
      innerLoop blo bhi i j2len js newj2len' best'

/-- The outer `for i in range(alo, ahi)` loop of `find_longest_match`;
each iteration starts a fresh `newj2len = {}`. -/
def outerLoop (a : List Char) (bj : Char → List Nat) (blo bhi : Nat) :
    List Nat → (Nat → Nat) → (Nat × Nat × Nat) → (Nat × Nat × Nat)
  | [], _, best => best
  | i :: is, j2len, best =>
    let r := innerLoop blo bhi i j2len (bj (a.getD i ' ')) (fun _ => 0) best
    outerLoop a bj blo bhi is r.1 r.2

/-- The backward extension loop of `find_longest_match`
(`while besti > alo and bestj > blo and a[besti-1] == b[bestj-1]`),
structurally recursive in `besti`. -/
def extendBack (a b : List Char) (alo blo : Nat) :
    Nat → Nat → Nat → (Nat × Nat × Nat)
  | 0, bestj, bestsize => (0, bestj, bestsize)
  | bi + 1, bestj, bestsize =>
    if alo < bi + 1 && blo < bestj && a.getD bi ' ' == b.getD (bestj - 1) ' ' then
      extendBack a b alo blo bi (bestj - 1) (bestsize + 1)
    else (bi + 1, bestj, bestsize)

/-- The forward extension loop of `find_longest_match`
(`while besti+bestsize < ahi and bestj+bestsize < bhi and
a[besti+bestsize] == b[bestj+bestsize]`), structurally recursive in the
remaining room `ahi - (besti + bestsize)`. -/
def extendForwardLen (a b : List Char) (bhi besti bestj : Nat) :
    Nat → Nat → Nat
  | 0, bestsize => bestsize
  | rem + 1, bestsize =>
    if bestj + bestsize < bhi && a.getD (besti + bestsize) ' ' == b.getD (bestj + bestsize) ' '
    then extendForwardLen a b bhi besti bestj rem (bestsize + 1)
    else bestsize

/-- `SequenceMatcher.find_longest_match` on the window
`a[alo:ahi] × b[blo:bhi]` (junk-free case). -/
def find_longest_match (a b : List Char) (bj : Char → List Nat)
    (alo ahi blo bhi : Nat) : Nat × Nat × Nat :=
  let m := outerLoop a bj blo bhi (List.range' alo (ahi - alo)) (fun _ => 0) (alo, blo, 0)
  let m₁ := extendBack a b alo blo m.1 m.2.1 m.2.2
  let size₂ := extendForwardLen a b bhi m₁.1 m₁.2.1 (ahi - (m₁.1 + m₁.2.2)) m₁.2.2
  (m₁.1, m₁.2.1, size₂)

/-- The queue loop of `SequenceMatcher.get_matching_blocks`, summed: the
total matched size over all blocks.  (`ratio` only uses the sum of block
sizes, which the final sort, the merging of adjacent blocks and the
`(la, lb, 0)` terminator leave unchanged.)  Python pushes the left
window, then the right window, and pops the most recent; the model keeps
the stack at the head.  Every popped window with a non-empty match pushes
windows of strictly smaller total size, so `2*(len(a)+len(b))+1` units of
fuel (see `ratio`) are never exhausted. -/
def matchingTotal (a b : List Char) (bj : Char → List Nat) :
    Nat → List (Nat × Nat × Nat × Nat) → Nat → Nat
  | 0, _, acc => acc
  | _ + 1, [], acc => acc
  | fuel + 1, (alo, ahi, blo, bhi) :: rest, acc =>
    let m := find_longest_match a b bj alo ahi blo bhi
    if m.2.2 = 0 then matchingTotal a b bj fuel rest acc
    else
      let push₁ := if alo < m.1 && blo < m.2.1 then [(alo, m.1, blo, m.2.1)] else []
      let push₂ := if m.1 + m.2.2 < ahi && m.2.1 + m.2.2 < bhi then
                     [(m.1 + m.2.2, ahi, m.2.1 + m.2.2, bhi)] else []
      matchingTotal a b bj fuel (push₂ ++ push₁ ++ rest) (acc + m.2.2)

/-- `SequenceMatcher.ratio` = `2 * matches / (len(a) + len(b))` as the
exact rational `mkRat (2 * matches) (len(a) + len(b))`, and `1.0` when
both sequences are empty (`difflib._calculate_ratio`). -/
def ratio (a b : List Char) : ℚ :=
  let la := a.length
  let lb := b.length
  let m := matchingTotal a b (b2j b) (2 * (la + lb) + 1) [(0, la, 0, lb)] 0
  if la + lb = 0 then 1 else mkRat (2 * m) (la + lb)

/-- `FuzzyMatcher.calculate_similarity`: `0.0` when either raw input is
falsy (empty), otherwise the `SequenceMatcher` ratio of the two
normalized strings. -/
def calculate_similarity (str1 str2 : String) : ℚ :=
  if str1 = "" ∨ str2 = "" then 0
  else ratio (normalize_string str1).data (normalize_string str2).data

/-- Stable insertion for a descending sort by score: an element passes
over exactly the earlier elements with strictly smaller score, so equal
scores keep their first-seen order, as Python's stable
`list.sort(key=..., reverse=True)` does. -/
def insertByScoreDesc (x : String × ℚ) : List (String × ℚ) → List (String × ℚ)
  | [] => [x]
  | y :: ys => if y.2 ≤ x.2 then x :: y :: ys else y :: insertByScoreDesc x ys

/-- Stable descending-by-score sort (extensionally Python's
`sort(key=lambda x: x[1], reverse=True)`). -/
def sortByScoreDesc (l : List (String × ℚ)) : List (String × ℚ) :=
  l.foldr insertByScoreDesc []

/-- `FuzzyMatcher.find_best_matches`. -/
def find_best_matches (target : String) (candidates : List String)
    (min_similarity : ℚ) (max_results : Nat) : List (String × ℚ) :=
  if target = "" ∨ candidates = [] then []
  else
    let similarities := (candidates.map (fun c => (c, calculate_similarity target c))).filter
      (fun p => min_similarity ≤ p.2)
    (sortByScoreDesc similarities).take max_results

/-- `FuzzyMatcher.find_best_match`. -/
def find_best_match (target : String) (candidates : List String)
    (min_similarity : ℚ) : Option (String × ℚ) :=
  (find_best_matches target candidates min_similarity 1).head?

/-! ## `src/services/inventory_service.py`

The `inventory` table (`src/database/models.py`) is a list of rows; the
`SERIAL` primary key is the successor of the largest id in use.  A raised
`ValueError` is `Except.error` with the exception's message; the session
context manager rolls back on an exception, so an erroring operation
returns no new list. -/

/-- One row of the `inventory` table (`models.Inventory`); the
`last_updated` timestamp column plays no part in any operation here. -/
structure Inventory where
  id : Nat
  ingredient_name : String
  quantity : ℚ
  unit : String
deriving DecidableEq, Repr

/-- The inventory table, in insertion order. -/
abbrev InventoryDB := List Inventory

/-- Rendering of a quantity inside a user-visible message (Python's
`f"{…}"` on the number); integral values print without a fraction. -/
def fmtQ (q : ℚ) : String :=
  if q.den = 1 then toString q.num else toString q

/-- Rendering of a similarity inside a user-visible message (Python's
`f"{similarity:.0%}"`): the percentage rounded to a whole number. -/
def fmtPct (q : ℚ) : String :=
  toString (round (q * 100)) ++ "%"

/-- `column.ilike(pattern)` for the plain (wildcard-free) names used
here: case-insensitive equality. -/
def ilikeEq (column pattern : String) : Bool :=
  pyLowerStr column == pyLowerStr pattern

/-- `InventoryService.get_ingredient_by_name`:
`query(Inventory).filter(Inventory.ingredient_name.ilike(name.strip())).first()`. -/
def get_ingredient_by_name (ingredient_name : String) (db : InventoryDB) : Option Inventory :=
  db.find? (fun it => ilikeEq it.ingredient_name (pyStrip ingredient_name))

/-- `filter(Inventory.id == ingredient_id).first()`. -/
def findById (ingredient_id : Nat) (db : InventoryDB) : Option Inventory :=
  db.find? (fun it => it.id == ingredient_id)

/-- The row a commit writes back: the row with this id replaced. -/
def updateRow (db : InventoryDB) (item : Inventory) : InventoryDB :=
  db.map (fun it => if it.id == item.id then item else it)

/-- The next `SERIAL` id. -/
def nextId (db : InventoryDB) : Nat :=
  db.foldl (fun m it => max m it.id) 0 + 1

/-- `InventoryService.add_ingredient`. -/
def add_ingredient (ingredient_name : String) (quantity : ℚ) (unit : String)
    (db : InventoryDB) : Except String (Inventory × InventoryDB) :=
  if pyStrip ingredient_name = "" then
    .error "El nombre del ingrediente no puede estar vacío"
  else if quantity < 0 then
    .error "La cantidad no puede ser negativa"
  else if pyStrip unit = "" then
    .error "La unidad no puede estar vacía"
  else
    match get_ingredient_by_name ingredient_name db with
    | some existing =>
      .error ("El ingrediente '" ++ ingredient_name ++ "' ya existe con ID "
              ++ toString existing.id)
    | none =>
      let new_item : Inventory := ⟨nextId db, pyStrip ingredient_name, quantity, pyStrip unit⟩
      .ok (new_item, db ++ [new_item])

/-- `InventoryService.add_quantity`. -/
def add_quantity (ingredient_id : Nat) (quantity_to_add : ℚ)
    (db : InventoryDB) : Except String (Option Inventory × InventoryDB) :=
  if quantity_to_add ≤ 0 then
    .error "La cantidad a agregar debe ser positiva"
  else
    match findById ingredient_id db with
    | none => .ok (none, db)
    | some item =>
      let item' := { item with quantity := item.quantity + quantity_to_add }
      .ok (some item', updateRow db item')

/-- `InventoryService.remove_quantity`: refuses a non-positive amount and
an amount exceeding the stock on hand (the `ValueError` whose message
states the requested and the available quantity); commits otherwise. -/
def remove_quantity (ingredient_id : Nat) (quantity_to_remove : ℚ)
    (db : InventoryDB) : Except String (Option Inventory × InventoryDB) :=
  if quantity_to_remove ≤ 0 then
    .error "La cantidad a quitar debe ser positiva"
  else
    match findById ingredient_id db with
    | none => .ok (none, db)
    | some item =>
      if item.quantity - quantity_to_remove < 0 then
        .error ("No se pueden quitar " ++ fmtQ quantity_to_remove ++ " " ++ item.unit
                ++ ". Solo hay " ++ fmtQ item.quantity ++ " " ++ item.unit
                ++ " disponibles.")
      else
        let item' := { item with quantity := item.quantity - quantity_to_remove }
        .ok (some item', updateRow db item')

/-- Stable insertion for the ascending `order_by(Inventory.ingredient_name)`. -/
def insertByNameAsc (x : Inventory) : List Inventory → List Inventory
  | [] => [x]
  | y :: ys =>
    if x.ingredient_name ≤ y.ingredient_name then x :: y :: ys
    else y :: insertByNameAsc x ys

/-- `InventoryService.list_all_ingredients`. -/
def list_all_ingredients (db : InventoryDB) : List Inventory :=
  db.foldr insertByNameAsc []

/-- `InventoryService.get_ingredient_by_name_fuzzy`: exact (ilike) match
at similarity `1.0`, else the best fuzzy match over all ingredient names
at or above the threshold. -/
def get_ingredient_by_name_fuzzy (ingredient_name : String) (min_similarity : ℚ)
    (db : InventoryDB) : Option (Inventory × ℚ) :=
  match get_ingredient_by_name ingredient_name db with
  | some exact_match => some (exact_match, 1)
  | none =>
    if db.isEmpty then none
    else
      let ingredient_names := db.map (fun it => it.ingredient_name)
      match find_best_match ingredient_name ingredient_names min_similarity with
      | none => none
      | some (matched_name, similarity) =>
        match db.find? (fun it => ilikeEq it.ingredient_name matched_name) with
        | none => none
        | some matched_item => some (matched_item, similarity)

/-! ## `src/services/smart_inventory_service.py`

The three dispatch targets the claims are about, as state transformers
`InventoryDB → InventoryDB × Bool × String`.  A caught `ValueError`
becomes the `"❌ Error: …"` response with the list unchanged (rollback). -/

/-- `SmartInventoryService._handle_add_quantity`. -/
def handle_add_quantity (ingredient_name : String) (quantity : ℚ) (unit : String)
    (db : InventoryDB) : InventoryDB × Bool × String :=
  match get_ingredient_by_name ingredient_name db with
  | some existing =>
    match add_quantity existing.id quantity db with
    | .error e => (db, false, "❌ Error: " ++ e)
    | .ok (some updated, db') =>
      (db', true, "✅ Se agregaron " ++ fmtQ quantity ++ " " ++ unit ++ " de "
        ++ ingredient_name ++ ".\nNuevo total: " ++ fmtQ updated.quantity
        ++ " " ++ updated.unit)
    | .ok (none, db') =>
      (db', false, "Error al agregar " ++ fmtQ quantity ++ " " ++ unit ++ " de "
        ++ ingredient_name ++ ".")
  | none =>
    match get_ingredient_by_name_fuzzy ingredient_name (7/10) db with
    | some (matched_item, similarity) =>
      if similarity < 9/10 then
        (db, true, "🤔 ¿Te refieres a '" ++ matched_item.ingredient_name
          ++ "'? (encontré una similitud del " ++ fmtPct similarity
          ++ ")\n\nSi es correcto, puedes confirmar diciendo 'sí, agregar "
          ++ fmtQ quantity ++ " " ++ unit ++ " de "
          ++ matched_item.ingredient_name ++ "'")
      else
        match add_quantity matched_item.id quantity db with
        | .error e => (db, false, "❌ Error: " ++ e)
        | .ok (some updated, db') =>
          (db', true, "✅ Se agregaron " ++ fmtQ quantity ++ " " ++ unit ++ " de "
            ++ matched_item.ingredient_name ++ " (corregido de '"
            ++ ingredient_name ++ "').\nNuevo total: " ++ fmtQ updated.quantity
            ++ " " ++ updated.unit)
        | .ok (none, db') =>
          (db', false, "Error al agregar " ++ fmtQ quantity ++ " " ++ unit ++ " de "
            ++ matched_item.ingredient_name ++ ".")
    | none =>
      match add_ingredient ingredient_name quantity unit db with
      | .error e => (db, false, "❌ Error: " ++ e)
      | .ok (_, db') =>
        (db', true, "✅ Se agregó nuevo ingrediente: " ++ ingredient_name
          ++ " (" ++ fmtQ quantity ++ " " ++ unit ++ ")")

/-- The common removal tail of `_handle_remove_quantity` (reached with
the exact match, or with the fuzzy match when `similarity >= 0.9`). -/
def handleRemoveWith (existing : Inventory) (ingredient_name : String) (quantity : ℚ)
    (unit : String) (db : InventoryDB) : InventoryDB × Bool × String :=
  match remove_quantity existing.id quantity db with
  | .error e => (db, false, "❌ Error: " ++ e)
  | .ok (some updated, db') =>
    let correction_note :=
      if existing.ingredient_name ≠ ingredient_name then
        " (corregido de '" ++ ingredient_name ++ "')"
      else ""
    (db', true, "✅ Se quitaron " ++ fmtQ quantity ++ " " ++ unit ++ " de "
      ++ existing.ingredient_name ++ correction_note ++ ".\nRestante: "
      ++ fmtQ updated.quantity ++ " " ++ updated.unit)
  | .ok (none, db') =>
    (db', false, "Error al quitar " ++ fmtQ quantity ++ " " ++ unit ++ " de "
      ++ existing.ingredient_name ++ ".")

/-- `SmartInventoryService._handle_remove_quantity`. -/
def handle_remove_quantity (ingredient_name : String) (quantity : ℚ) (unit : String)
    (db : InventoryDB) : InventoryDB × Bool × String :=
  match get_ingredient_by_name ingredient_name db with
  | some existing => handleRemoveWith existing ingredient_name quantity unit db
  | none =>
    match get_ingredient_by_name_fuzzy ingredient_name (7/10) db with
    | some (matched_item, similarity) =>
      if similarity < 9/10 then
        (db, true, "🤔 ¿Te refieres a '" ++ matched_item.ingredient_name
          ++ "'? (encontré una similitud del " ++ fmtPct similarity
          ++ ")\n\nSi es correcto, puedes confirmar diciendo 'sí, quitar "
          ++ fmtQ quantity ++ " " ++ unit ++ " de "
          ++ matched_item.ingredient_name ++ "'")
      else handleRemoveWith matched_item ingredient_name quantity unit db
    | none =>
      (db, false, "❌ " ++ ingredient_name ++ " no se encontró en el inventario.")

/-- The wildcard tokens of `_handle_check_stock`. -/
def stockWildcards : List String :=
  ["todo", "todos", "all", "everything", "inventario", "inventory"]

/-- `SmartInventoryService._handle_check_stock`. -/
def handle_check_stock (ingredient_name : String)
    (db : InventoryDB) : InventoryDB × Bool × String :=
  if pyLowerStr ingredient_name ∈ stockWildcards then
    let all_ingredients := list_all_ingredients db
    if all_ingredients.isEmpty then
      (db, true, "📦 El inventario está vacío.")
    else
      (db, true, "📦 **Inventario Actual:**\n"
        ++ String.join (all_ingredients.map (fun item =>
             "• " ++ item.ingredient_name ++ ": " ++ fmtQ item.quantity
             ++ " " ++ item.unit ++ "\n")))
  else
    match get_ingredient_by_name ingredient_name db with
    | some existing =>
      (db, true, "📦 " ++ existing.ingredient_name ++ ": "
        ++ fmtQ existing.quantity ++ " " ++ existing.unit)
    | none =>
      match get_ingredient_by_name_fuzzy ingredient_name (7/10) db with
      | some (matched_item, similarity) =>
        if similarity < 9/10 then
          (db, true, "📦 " ++ ingredient_name ++ " no se encontró exactamente.\n🤔 ¿Te refieres a '"
            ++ matched_item.ingredient_name ++ "'? (similitud: " ++ fmtPct similarity
            ++ ")\n📦 " ++ matched_item.ingredient_name ++ ": "
            ++ fmtQ matched_item.quantity ++ " " ++ matched_item.unit)
        else
          (db, true, "📦 " ++ matched_item.ingredient_name ++ " (corregido de '"
            ++ ingredient_name ++ "'): " ++ fmtQ matched_item.quantity
            ++ " " ++ matched_item.unit)
      | none =>
        (db, true, "📦 " ++ ingredient_name ++ " no se encontró en el inventario.")

/-! ## Theorems -/

/-- C10: the missing-fields prompt formatter is partial on empty input:
for the empty list the `translated[-1]` indexing of the source raises
`IndexError` (modelled as `none`), and for every non-empty list a prompt
is returned, so callers must only invoke it with a non-empty list. -/
theorem format_missing_fields_prompt_partial_on_empty :
    format_missing_fields_prompt [] = none ∧
    ∀ missing_fields : List String, missing_fields ≠ [] →
      (format_missing_fields_prompt missing_fields).isSome := by
  refine ⟨rfl, ?_⟩
  intro l h
  match l with
  | [] => exact absurd rfl h
  | [a] => rfl
  | [a, b] => rfl
  | a :: b :: c :: rest => rfl

/-- C10 witness: the formatter succeeds on the concrete one-field list. -/
theorem format_missing_fields_prompt_partial_on_empty_witness :
    (format_missing_fields_prompt ["provider"]).isSome :=
  format_missing_fields_prompt_partial_on_empty.2 ["provider"] (by decide)

/-- C8 counterexample: the unit `"XYZ"` lies outside every conversion
table of `normalize_unit`, yet it is not passed through with the unit
unchanged — the source lowercases and strips the token first and returns
that token. -/
theorem normalize_unit_not_pass_through_unchanged :
    normalize_unit "XYZ" 3 ≠ (3, "XYZ") := by decide

/-- C8 (amended): `normalize_unit` never fails; gram units divide the
quantity by 1000 and convert to `"kg"`, milliliter units divide by 1000
and convert to `"liters"`, count-unit synonyms map to `"pcs"` with the
quantity unchanged; in addition, kilogram synonyms canonicalize to
`"kg"` and liter synonyms to `"liters"` (quantity unchanged), the empty
unit becomes `"pcs"`, and every other unit is returned as its
lowercased, stripped token with the quantity unchanged. -/
theorem normalize_unit_spec (unit : String) (quantity : ℚ) :
    (unit = "" → normalize_unit unit quantity = (quantity, "pcs")) ∧
    (unit ≠ "" →
      (pyStrip (pyLowerStr unit) ∈ ["g", "gram", "grams", "gramo", "gramos"] →
        normalize_unit unit quantity = (quantity / 1000, "kg")) ∧
      (pyStrip (pyLowerStr unit) ∈ ["kg", "kilogram", "kilograms", "kilo", "kilos",
          "kilogramo", "kilogramos"] →
        normalize_unit unit quantity = (quantity, "kg")) ∧
      (pyStrip (pyLowerStr unit) ∈ ["ml", "milliliter", "milliliters", "mililitro", "mililitros"] →
        normalize_unit unit quantity = (quantity / 1000, "liters")) ∧
      (pyStrip (pyLowerStr unit) ∈ ["l", "liter", "liters", "litre", "litres", "litro", "litros"] →
        normalize_unit unit quantity = (quantity, "liters")) ∧
      (pyStrip (pyLowerStr unit) ∈ ["pcs", "pieces", "piece", "pc", "units", "unit", "pieza",
          "piezas", "unidad", "unidades"] →
        normalize_unit unit quantity = (quantity, "pcs")) ∧
      (pyStrip (pyLowerStr unit) ∉ ["g", "gram", "grams", "gramo", "gramos"] ++
          ["kg", "kilogram", "kilograms", "kilo", "kilos", "kilogramo", "kilogramos"] ++
          ["ml", "milliliter", "milliliters", "mililitro", "mililitros"] ++
          ["l", "liter", "liters", "litre", "litres", "litro", "litros"] ++
          ["pcs", "pieces", "piece", "pc", "units", "unit", "pieza", "piezas",
           "unidad", "unidades"] →
        normalize_unit unit quantity = (quantity, pyStrip (pyLowerStr unit)))) := by
  constructor
  · intro h
    simp [normalize_unit, h]
  · intro h
    refine ⟨?_, ?_, ?_, ?_, ?_, ?_⟩ <;> intro hmem
    · have h2 : ¬(pyStrip (pyLowerStr unit) ∈ ["kg", "kilogram", "kilograms", "kilo", "kilos",
          "kilogramo", "kilogramos"]) := by
        simp only [List.mem_cons, List.not_mem_nil, or_false] at hmem ⊢
        rcases hmem with h' | h' | h' | h' | h' <;> simp [h']
      simp [normalize_unit, h, hmem]
    · have h1 : ¬(pyStrip (pyLowerStr unit) ∈ ["g", "gram", "grams", "gramo", "gramos"]) := by
        simp only [List.mem_cons, List.not_mem_nil, or_false] at hmem ⊢
        rcases hmem with h' | h' | h' | h' | h' | h' | h' <;> simp [h']
      simp [normalize_unit, h, hmem, h1]
    · have h1 : ¬(pyStrip (pyLowerStr unit) ∈ ["g", "gram", "grams", "gramo", "gramos"]) := by
        simp only [List.mem_cons, List.not_mem_nil, or_false] at hmem ⊢
        rcases hmem with h' | h' | h' | h' | h' <;> simp [h']
      have h2 : ¬(pyStrip (pyLowerStr unit) ∈ ["kg", "kilogram", "kilograms", "kilo", "kilos",
          "kilogramo", "kilogramos"]) := by
        simp only [List.mem_cons, List.not_mem_nil, or_false] at hmem ⊢
        rcases hmem with h' | h' | h' | h' | h' <;> simp [h']
      simp [normalize_unit, h, hmem, h1, h2]
    · have h1 : ¬(pyStrip (pyLowerStr unit) ∈ ["g", "gram", "grams", "gramo", "gramos"]) := by
        simp only [List.mem_cons, List.not_mem_nil, or_false] at hmem ⊢
        rcases hmem with h' | h' | h' | h' | h' | h' | h' <;> simp [h']
      have h2 : ¬(pyStrip (pyLowerStr unit) ∈ ["kg", "kilogram", "kilograms", "kilo", "kilos",
          "kilogramo", "kilogramos"]) := by
        simp only [List.mem_cons, List.not_mem_nil, or_false] at hmem ⊢
        rcases hmem with h' | h' | h' | h' | h' | h' | h' <;> simp [h']
      have h3 : ¬(pyStrip (pyLowerStr unit) ∈ ["ml", "milliliter", "milliliters", "mililitro",
          "mililitros"]) := by
        simp only [List.mem_cons, List.not_mem_nil, or_false] at hmem ⊢
        rcases hmem with h' | h' | h' | h' | h' | h' | h' <;> simp [h']
      simp [normalize_unit, h, hmem, h1, h2, h3]
    · have h1 : ¬(pyStrip (pyLowerStr unit) ∈ ["g", "gram", "grams", "gramo", "gramos"]) := by
        simp only [List.mem_cons, List.not_mem_nil, or_false] at hmem ⊢
        rcases hmem with h' | h' | h' | h' | h' | h' | h' | h' | h' | h' <;> simp [h']
      have h2 : ¬(pyStrip (pyLowerStr unit) ∈ ["kg", "kilogram", "kilograms", "kilo", "kilos",
          "kilogramo", "kilogramos"]) := by
        simp only [List.mem_cons, List.not_mem_nil, or_false] at hmem ⊢
        rcases hmem with h' | h' | h' | h' | h' | h' | h' | h' | h' | h' <;> simp [h']
      have h3 : ¬(pyStrip (pyLowerStr unit) ∈ ["ml", "milliliter", "milliliters", "mililitro",
          "mililitros"]) := by
        simp only [List.mem_cons, List.not_mem_nil, or_false] at hmem ⊢
        rcases hmem with h' | h' | h' | h' | h' | h' | h' | h' | h' | h' <;> simp [h']
      have h4 : ¬(pyStrip (pyLowerStr unit) ∈ ["l", "liter", "liters", "litre", "litres",
          "litro", "litros"]) := by
        simp only [List.mem_cons, List.not_mem_nil, or_false] at hmem ⊢
        rcases hmem with h' | h' | h' | h' | h' | h' | h' | h' | h' | h' <;> simp [h']
      simp [normalize_unit, h, hmem, h1, h2, h3, h4]
    · simp only [List.mem_append, not_or] at hmem
      obtain ⟨⟨⟨⟨hg, hkg⟩, hml⟩, hl⟩, hp⟩ := hmem
      simp [normalize_unit, h, hg, hkg, hml, hl, hp]

/-- C8 witness: concrete conversions — grams divide by 1000, an unknown
unit passes through lowercased. -/
theorem normalize_unit_spec_witness :
    normalize_unit "gramos" 500 = (1/2, "kg") ∧
    normalize_unit "Botellas" 2 = (2, "botellas") := by
  constructor
  · have h := (normalize_unit_spec "gramos" 500).2 (by decide)
    have h10 := h.1 (by decide)
    rw [h10]
    norm_num
  · have h := (normalize_unit_spec "Botellas" 2).2 (by decide)
    have := h.2.2.2.2.2 (by decide)
    simpa using this

/-- A provided field value in the words of the specification: non-null,
non-blank, and (for the cost field only) numerically non-zero. -/
def FieldProvided (field : String) (value : Option Value) : Prop :=
  ∃ v, value = some v ∧ (∀ s, v = .str s → pyStrip s ≠ "") ∧
    (field = "cost" → ∀ q, v = .num q → q ≠ 0)

/-- The per-field missing test refuses a value exactly when it is not
provided in the spec's sense. -/
theorem isMissingValue_eq_false_iff (f : String) (v : Option Value) :
    isMissingValue f v = false ↔ FieldProvided f v := by
  cases v with
  | none => simp [isMissingValue, FieldProvided]
  | some w =>
    cases w with
    | str s => simp [isMissingValue, FieldProvided]
    | num q => simp [isMissingValue, FieldProvided]

/-- C4: for every action kind and field map, `check_missing_fields` is a
sublist (subset, in `get_required_fields` order) of the required fields,
and it is empty exactly when every required field's value is non-null,
non-blank and — for the cost field — non-zero. -/
theorem check_missing_fields_spec (action : String) (parsed : String → Option Value) :
    (check_missing_fields action parsed).Sublist (get_required_fields action) ∧
    (check_missing_fields action parsed = [] ↔
      ∀ f ∈ get_required_fields action, FieldProvided f (parsed f)) := by
  refine ⟨List.filter_sublist _, ?_⟩
  rw [check_missing_fields, List.filter_eq_nil_iff]
  constructor
  · intro hall f hf
    exact (isMissingValue_eq_false_iff f (parsed f)).1 (by simpa using hall f hf)
  · intro hall f hf
    simp [(isMissingValue_eq_false_iff f (parsed f)).2 (hall f hf)]

/-- C4 witness: the theorem applied at a concrete purchase field map. -/
theorem check_missing_fields_spec_witness :
    (check_missing_fields "register_purchase"
        (fun f => if f = "ingredient_name" then some (.str "vino blanco") else none)).Sublist
      (get_required_fields "register_purchase") :=
  (check_missing_fields_spec "register_purchase"
    (fun f => if f = "ingredient_name" then some (.str "vino blanco") else none)).1

/-- C9: a wildcard stock check on the empty inventory reports success
with the explicit "empty" message, and a specific name with no exact and
no fuzzy candidate reports "not found" with success, not an error. -/
theorem check_stock_wildcard_empty_and_not_found :
    (∀ name : String, pyLowerStr name ∈ stockWildcards →
      handle_check_stock name ([] : InventoryDB) =
        ([], true, "📦 El inventario está vacío.")) ∧
    (∀ (name : String) (db : InventoryDB),
      pyLowerStr name ∉ stockWildcards →
      get_ingredient_by_name name db = none →
      get_ingredient_by_name_fuzzy name (7/10) db = none →
      handle_check_stock name db =
        (db, true, "📦 " ++ name ++ " no se encontró en el inventario.")) := by
  constructor
  · intro name h
    simp [handle_check_stock, h, list_all_ingredients]
  · intro name db h h1 h2
    simp [handle_check_stock, h, h1, h2]

/-- C9 witness: the theorem applied on the empty inventory, at the
wildcard `"todo"` and at the unknown name `"xyz"`. -/
theorem check_stock_wildcard_empty_and_not_found_witness :
    handle_check_stock "todo" ([] : InventoryDB) =
      ([], true, "📦 El inventario está vacío.") ∧
    handle_check_stock "xyz" ([] : InventoryDB) =
      ([], true, "📦 " ++ "xyz" ++ " no se encontró en el inventario.") :=
  ⟨check_stock_wildcard_empty_and_not_found.1 "todo" (by decide),
   check_stock_wildcard_empty_and_not_found.2 "xyz" [] (by decide) (by decide) (by decide)⟩

/-- C3: a usage registration requesting more than the stock on hand
fails: the handler reports success = false, the message states the
available and the requested quantities, and the stored inventory list is
returned unchanged (no record is written). -/
theorem remove_quantity_insufficient_stock (name : String) (q : ℚ) (unit : String)
    (db : InventoryDB) (item : Inventory)
    (hname : get_ingredient_by_name name db = some item)
    (hid : findById item.id db = some item)
    (h0 : 0 ≤ item.quantity)
    (hlt : item.quantity < q) :
    handle_remove_quantity name q unit db =
      (db, false,
       "❌ Error: " ++ ("No se pueden quitar " ++ fmtQ q ++ " " ++ item.unit
         ++ ". Solo hay " ++ fmtQ item.quantity ++ " " ++ item.unit
         ++ " disponibles.")) := by
  have hq : ¬(q ≤ 0)
  · exact not_le.mpr (h0.trans_lt hlt)
  have hneg : item.quantity - q < 0
  · linarith
  simp [handle_remove_quantity, hname, handleRemoveWith, remove_quantity, hq, hid, hneg]

/-- C3 witness: requesting 5 kg with 3 kg on hand. -/
theorem remove_quantity_insufficient_stock_witness :
    handle_remove_quantity "harina" 5 "kg" [⟨1, "harina", 3, "kg"⟩] =
      ([⟨1, "harina", 3, "kg"⟩], false,
       "❌ Error: " ++ ("No se pueden quitar " ++ fmtQ 5 ++ " " ++ "kg"
         ++ ". Solo hay " ++ fmtQ 3 ++ " " ++ "kg" ++ " disponibles.")) :=
  remove_quantity_insufficient_stock "harina" 5 "kg" [⟨1, "harina", 3, "kg"⟩]
    ⟨1, "harina", 3, "kg"⟩ (by decide) (by decide) (by decide) (by decide)

/-! ### Merge characterization (for C5) -/

/-- One assignment step of `lastAssign`. -/
def lastAssignStep (g : String) (acc : Option Value) (fv : String × Option Value) : Option Value :=
  if fv.1 = g then (match fv.2 with | some v => some v | none => acc) else acc

/-- The last non-`None` value a supplement assigns to field `g`. -/
def lastAssign (s : List (String × Option Value)) (g : String) : Option Value :=
  s.foldl (lastAssignStep g) none

/-- The field names a supplement actually assigns (non-`None` value on a
mergeable field), in iteration order. -/
def assignedKeys (s : List (String × Option Value)) : List String :=
  s.filterMap (fun fv => if fv.2.isSome && mergeableField fv.1 then some fv.1 else none)

theorem setField_missing_fields (p : PendingAction) (f : String) (v : Value) :
    (p.setField f v).missing_fields = p.missing_fields := by
  unfold PendingAction.setField
  split_ifs <;> rfl

theorem setField_action (p : PendingAction) (f : String) (v : Value) :
    (p.setField f v).action = p.action := by
  unfold PendingAction.setField
  split_ifs <;> rfl

theorem setField_original (p : PendingAction) (f : String) (v : Value) :
    (p.setField f v).original_message = p.original_message := by
  unfold PendingAction.setField
  split_ifs <;> rfl

theorem getField_mk_missing (p : PendingAction) (m : List String) (g : String) :
    ({ p with missing_fields := m } : PendingAction).getField g = p.getField g := by
  unfold PendingAction.getField
  split_ifs <;> rfl

theorem getField_setField_mergeable (p : PendingAction) (f g : String) (v : Value)
    (hf : mergeableField f = true) (hg : mergeableField g = true) :
    (p.setField f v).getField g = if g = f then some v else p.getField g := by
  have hfm : f = "ingredient_name" ∨ f = "quantity" ∨ f = "unit" ∨ f = "cost" ∨
      f = "currency" ∨ f = "provider" ∨ f = "payment_method" ∨
      f = "expense_category" ∨ f = "reason" := by
    simpa [mergeableField] using hf
  have hgm : g = "ingredient_name" ∨ g = "quantity" ∨ g = "unit" ∨ g = "cost" ∨
      g = "currency" ∨ g = "provider" ∨ g = "payment_method" ∨
      g = "expense_category" ∨ g = "reason" := by
    simpa [mergeableField] using hg
  rcases hfm with rfl | rfl | rfl | rfl | rfl | rfl | rfl | rfl | rfl <;>
    rcases hgm with rfl | rfl | rfl | rfl | rfl | rfl | rfl | rfl | rfl <;>
      simp [PendingAction.setField, PendingAction.getField]

theorem getField_of_not_mergeable (p : PendingAction) (g : String)
    (hg : mergeableField g = false) : p.getField g = none := by
  simp only [mergeableField, List.mem_cons, List.not_mem_nil, or_false,
    decide_eq_false_iff_not, not_or] at hg
  simp [PendingAction.getField, hg.1, hg.2.1, hg.2.2.1, hg.2.2.2.1, hg.2.2.2.2.1,
    hg.2.2.2.2.2.1, hg.2.2.2.2.2.2.1, hg.2.2.2.2.2.2.2.1, hg.2.2.2.2.2.2.2.2]

theorem lastAssign_init (g : String) (s : List (String × Option Value)) :
    ∀ acc, s.foldl (lastAssignStep g) acc =
      match s.foldl (lastAssignStep g) none with
      | some v => some v
      | none => acc := by
  induction s with
  | nil => intro acc; rfl
  | cons fv rest ih =>
    intro acc
    simp only [List.foldl_cons]
    rw [ih (lastAssignStep g acc fv), ih (lastAssignStep g none fv)]
    cases hrest : rest.foldl (lastAssignStep g) none with
    | some v => rfl
    | none =>
      unfold lastAssignStep
      split_ifs with hf
      · cases fv.2 <;> rfl
      · rfl

theorem merge_action (p : PendingAction) (s : List (String × Option Value)) :
    (p.merge_with_supplement s).action = p.action := by
  induction s generalizing p with
  | nil => rfl
  | cons fv rest ih =>
    show ((mergeStep p fv).merge_with_supplement rest).action = p.action
    rw [ih]
    unfold mergeStep
    cases fv.2 with
    | none => rfl
    | some v =>
      simp only
      split_ifs with hm
      · exact setField_action p fv.1 v
      · rfl

theorem merge_original (p : PendingAction) (s : List (String × Option Value)) :
    (p.merge_with_supplement s).original_message = p.original_message := by
  induction s generalizing p with
  | nil => rfl
  | cons fv rest ih =>
    show ((mergeStep p fv).merge_with_supplement rest).original_message = p.original_message
    rw [ih]
    unfold mergeStep
    cases fv.2 with
    | none => rfl
    | some v =>
      simp only
      split_ifs with hm
      · exact setField_original p fv.1 v
      · rfl

theorem merge_missing_fields (p : PendingAction) (s : List (String × Option Value)) :
    (p.merge_with_supplement s).missing_fields =
      (assignedKeys s).foldl List.erase p.missing_fields := by
  induction s generalizing p with
  | nil => rfl
  | cons fv rest ih =>
    show ((mergeStep p fv).merge_with_supplement rest).missing_fields = _
    rw [ih]
    unfold mergeStep assignedKeys
    cases h2 : fv.2 with
    | none => simp [List.filterMap_cons, h2, assignedKeys]
    | some v =>
      simp only [h2, Option.isSome_some, Bool.true_and]
      cases hm : mergeableField fv.1 with
      | false => simp [List.filterMap_cons, h2, hm, assignedKeys]
      | true =>
        simp only [hm, if_true, List.filterMap_cons, h2, Option.isSome_some,
          Bool.true_and, assignedKeys]
        simp [setField_missing_fields]

theorem merge_getField (p : PendingAction) (s : List (String × Option Value))
    (g : String) (hg : mergeableField g = true) :
    (p.merge_with_supplement s).getField g =
      match lastAssign s g with
      | some v => some v
      | none => p.getField g := by
  induction s generalizing p with
  | nil => rfl
  | cons fv rest ih =>
    show ((mergeStep p fv).merge_with_supplement rest).getField g = _
    rw [ih]
    have hcons : lastAssign (fv :: rest) g =
        match lastAssign rest g with
        | some v => some v
        | none => lastAssignStep g none fv := by
      show (fv :: rest).foldl (lastAssignStep g) none = _
      rw [List.foldl_cons, lastAssign_init g rest (lastAssignStep g none fv)]
      rfl
    rw [hcons]
    cases hrest : lastAssign rest g with
    | some v => rfl
    | none =>
      simp only
      unfold mergeStep lastAssignStep
      cases h2 : fv.2 with
      | none =>
        simp only
        split_ifs <;> rfl
      | some v =>
        simp only
        cases hm : mergeableField fv.1 with
        | false =>
          simp only [hm, if_false, Bool.false_eq_true]
          have hne : ¬(fv.1 = g) := by
            intro h
            rw [h, hg] at hm
            exact Bool.noConfusion hm
          rw [if_neg hne]
        | true =>
          simp only [hm, if_true]
          rw [getField_mk_missing, getField_setField_mergeable p fv.1 g v hm hg]
          by_cases hfg : fv.1 = g
          · rw [if_pos hfg.symm, if_pos hfg]
          · rw [if_neg (fun hc => hfg hc.symm), if_neg hfg]

theorem foldl_erase_eq_filter (ks : List String) :
    ∀ l : List String, l.Nodup →
      ks.foldl List.erase l = l.filter (fun x => decide (x ∉ ks)) := by
  induction ks with
  | nil => intro l _; simp
  | cons k ks ih =>
    intro l hnd
    rw [List.foldl_cons, ih (l.erase k) (hnd.erase k), hnd.erase_eq_filter k,
      List.filter_filter]
    apply List.filter_congr
    intro x _
    have hb : (x != k) = !decide (x = k) := by
      by_cases hxk : x = k <;> simp [hxk]
    simp [List.mem_cons, not_or, hb, Bool.and_comm]

/-- Two pending actions agreeing on action, message, missing fields and
every mergeable attribute are equal. -/
theorem PendingAction.ext_of (p q : PendingAction)
    (ha : p.action = q.action) (ho : p.original_message = q.original_message)
    (hm : p.missing_fields = q.missing_fields)
    (hf : ∀ g, p.getField g = q.getField g) : p = q := by
  have h1 := hf "ingredient_name"
  have h2 := hf "quantity"
  have h3 := hf "unit"
  have h4 := hf "cost"
  have h5 := hf "currency"
  have h6 := hf "provider"
  have h7 := hf "payment_method"
  have h8 := hf "expense_category"
  have h9 := hf "reason"
  simp only [PendingAction.getField, if_true, if_false, String.reduceEq,
    reduceIte] at h1 h2 h3 h4 h5 h6 h7 h8 h9
  obtain ⟨a, o, f1, f2, f3, f4, f5, f6, f7, f8, f9, m⟩ := p
  obtain ⟨a', o', g1, g2, g3, g4, g5, g6, g7, g8, g9, m'⟩ := q
  simp_all

/-- C5 counterexample: with a duplicate entry in `missing_fields`,
merging the same supplement twice removes a second occurrence and yields
a different missing-fields set than merging once. -/
theorem merge_with_supplement_not_idempotent :
    ¬ ((PendingAction.merge_with_supplement
          (PendingAction.merge_with_supplement
            { action := "register_purchase", original_message := "m",
              missing_fields := ["provider", "provider"] }
            [("provider", some (.str "Lider"))])
          [("provider", some (.str "Lider"))]) =
        (PendingAction.merge_with_supplement
          { action := "register_purchase", original_message := "m",
            missing_fields := ["provider", "provider"] }
          [("provider", some (.str "Lider"))])) := by
  decide

/-- C5 (amended): merging a supplement into a pending action whose
`missing_fields` list has no duplicate entries (as every list produced by
`check_missing_fields` does) is idempotent — merging the same supplement
twice yields the same field values and the same missing-fields list as
merging it once. -/
theorem merge_with_supplement_idempotent (p : PendingAction)
    (s : List (String × Option Value)) (hnd : p.missing_fields.Nodup) :
    (p.merge_with_supplement s).merge_with_supplement s =
      p.merge_with_supplement s := by
  apply PendingAction.ext_of
  · rw [merge_action, merge_action]
  · rw [merge_original, merge_original]
  · have h1 : (p.merge_with_supplement s).missing_fields =
        p.missing_fields.filter (fun x => decide (x ∉ assignedKeys s)) := by
      rw [merge_missing_fields, foldl_erase_eq_filter _ _ hnd]
    rw [merge_missing_fields, h1, foldl_erase_eq_filter _ _ (hnd.filter _),
      List.filter_filter]
    apply List.filter_congr
    intro x _
    rw [Bool.and_self]
  · intro g
    cases hg : mergeableField g with
    | false =>
      rw [getField_of_not_mergeable _ _ hg, getField_of_not_mergeable _ _ hg]
    | true =>
      rw [merge_getField (p.merge_with_supplement s) s g hg]
      cases h : lastAssign s g with
      | some v => rw [merge_getField p s g hg, h]
      | none => rw [merge_getField p s g hg, h]

/-- C5 witness: idempotence at the concrete pending purchase of the
repo's conversation-flow test. -/
theorem merge_with_supplement_idempotent_witness :
    (PendingAction.merge_with_supplement
        (PendingAction.merge_with_supplement
          { action := "register_purchase",
            original_message := "compre un vino blanco 1 litro en $1790",
            ingredient_name := some (.str "vino blanco"),
            quantity := some (.num 1), unit := some (.str "litro"),
            cost := some (.num 1790),
            missing_fields := ["provider", "payment_method"] }
          [("provider", some (.str "Líder")), ("payment_method", some (.str "Débito"))])
        [("provider", some (.str "Líder")), ("payment_method", some (.str "Débito"))]) =
      (PendingAction.merge_with_supplement
        { action := "register_purchase",
          original_message := "compre un vino blanco 1 litro en $1790",
          ingredient_name := some (.str "vino blanco"),
          quantity := some (.num 1), unit := some (.str "litro"),
          cost := some (.num 1790),
          missing_fields := ["provider", "payment_method"] }
        [("provider", some (.str "Líder")), ("payment_method", some (.str "Débito"))]) :=
  merge_with_supplement_idempotent _ _ (by decide)

/-- C2 counterexample: the FuzzyLow tier does not execute.  With
`"vainilla"` in stock and the typed name `"vanil"`, the fuzzy score is
`10/13`, inside `[0.7, 0.9)`, yet the add-quantity operation leaves the
inventory unchanged and only asks the user to confirm — it does not
execute with a "corrected from" note as the claim states. -/
theorem handle_add_quantity_fuzzy_low_does_not_execute :
    get_ingredient_by_name_fuzzy "vanil" (7/10) [⟨1, "vainilla", 5, "pcs"⟩] =
      some (⟨1, "vainilla", 5, "pcs"⟩, 10/13) ∧
    (7/10 : ℚ) ≤ 10/13 ∧ (10/13 : ℚ) < 9/10 ∧
    (handle_add_quantity "vanil" 1 "pcs" [⟨1, "vainilla", 5, "pcs"⟩]).1 =
      [⟨1, "vainilla", 5, "pcs"⟩] ∧
    (handle_add_quantity "vanil" 1 "pcs" [⟨1, "vainilla", 5, "pcs"⟩]).2.2 =
      "🤔 ¿Te refieres a 'vainilla'? (encontré una similitud del 77%)\n\nSi es correcto, puedes confirmar diciendo 'sí, agregar 1 pcs de vainilla'" :=
  ⟨by with_unfolding_all rfl, by norm_num, by norm_num,
   by with_unfolding_all rfl, by with_unfolding_all rfl⟩

/-- C2 (amended): the resolution tiers of `_handle_add_quantity` as
implemented.  When the exact lookup misses: a fuzzy score ≥ 0.9
auto-corrects to the matched canonical name and executes, annotating the
response with "(corregido de 'X')" rather than silently; a score in
[0.7, 0.9) does not execute — the inventory is unchanged and the user is
asked to confirm the suggestion; with no fuzzy candidate at 0.7 the name
is treated as a new entity and a fresh ingredient row is created. -/
theorem handle_add_quantity_resolution_tiers :
    (∀ (name : String) (q : ℚ) (unit : String) (db : InventoryDB)
        (mi : Inventory) (sim : ℚ),
      get_ingredient_by_name name db = none →
      get_ingredient_by_name_fuzzy name (7/10) db = some (mi, sim) →
      9/10 ≤ sim →
      findById mi.id db = some mi →
      0 < q →
      handle_add_quantity name q unit db =
        (updateRow db { mi with quantity := mi.quantity + q }, true,
         "✅ Se agregaron " ++ fmtQ q ++ " " ++ unit ++ " de "
           ++ mi.ingredient_name ++ " (corregido de '" ++ name
           ++ "').\nNuevo total: " ++ fmtQ (mi.quantity + q) ++ " " ++ mi.unit)) ∧
    (∀ (name : String) (q : ℚ) (unit : String) (db : InventoryDB)
        (mi : Inventory) (sim : ℚ),
      get_ingredient_by_name name db = none →
      get_ingredient_by_name_fuzzy name (7/10) db = some (mi, sim) →
      sim < 9/10 →
      handle_add_quantity name q unit db =
        (db, true,
         "🤔 ¿Te refieres a '" ++ mi.ingredient_name
           ++ "'? (encontré una similitud del " ++ fmtPct sim
           ++ ")\n\nSi es correcto, puedes confirmar diciendo 'sí, agregar "
           ++ fmtQ q ++ " " ++ unit ++ " de " ++ mi.ingredient_name ++ "'")) ∧
    (∀ (name : String) (q : ℚ) (unit : String) (db : InventoryDB),
      get_ingredient_by_name name db = none →
      get_ingredient_by_name_fuzzy name (7/10) db = none →
      pyStrip name ≠ "" →
      ¬(q < 0) →
      pyStrip unit ≠ "" →
      handle_add_quantity name q unit db =
        (db ++ [⟨nextId db, pyStrip name, q, pyStrip unit⟩], true,
         "✅ Se agregó nuevo ingrediente: " ++ name ++ " (" ++ fmtQ q
           ++ " " ++ unit ++ ")")) := by
  refine ⟨?_, ?_, ?_⟩
  · intro name q unit db mi sim hexact hfuzzy hge hid hq
    have hq' : ¬(q ≤ 0) := not_le.mpr hq
    have hnlt : ¬(sim < 9/10) := not_lt.mpr hge
    simp [handle_add_quantity, hexact, hfuzzy, hnlt, add_quantity, hq', hid]
  · intro name q unit db mi sim hexact hfuzzy hlt
    simp [handle_add_quantity, hexact, hfuzzy, hlt]
  · intro name q unit db hexact hfuzzy hname hq hunit
    simp [handle_add_quantity, hexact, hfuzzy, add_ingredient, hname, hq, hunit]

/-- C2 witness: the three tiers at concrete inventories —
`"chocolte"`→`"chocolate"` at score 16/17 executes with the correction
note, `"vanil"`→`"vainilla"` at score 10/13 only asks, and `"zzz"`
creates a new ingredient. -/
theorem handle_add_quantity_resolution_tiers_witness :
    handle_add_quantity "chocolte" 3 "kg" [⟨1, "chocolate", 2, "kg"⟩] =
      (updateRow [⟨1, "chocolate", 2, "kg"⟩]
         { (⟨1, "chocolate", 2, "kg"⟩ : Inventory) with quantity := 2 + 3 }, true,
       "✅ Se agregaron " ++ fmtQ 3 ++ " " ++ "kg" ++ " de "
         ++ "chocolate" ++ " (corregido de '" ++ "chocolte"
         ++ "').\nNuevo total: " ++ fmtQ (2 + 3) ++ " " ++ "kg") ∧
    handle_add_quantity "vanil" 1 "pcs" [⟨1, "vainilla", 5, "pcs"⟩] =
      ([⟨1, "vainilla", 5, "pcs"⟩], true,
       "🤔 ¿Te refieres a '" ++ "vainilla"
         ++ "'? (encontré una similitud del " ++ fmtPct (10/13)
         ++ ")\n\nSi es correcto, puedes confirmar diciendo 'sí, agregar "
         ++ fmtQ 1 ++ " " ++ "pcs" ++ " de " ++ "vainilla" ++ "'") ∧
    handle_add_quantity "zzz" 1 "kg" [⟨1, "chocolate", 2, "kg"⟩] =
      ([⟨1, "chocolate", 2, "kg"⟩] ++ [⟨nextId [⟨1, "chocolate", 2, "kg"⟩],
          pyStrip "zzz", 1, pyStrip "kg"⟩], true,
       "✅ Se agregó nuevo ingrediente: " ++ "zzz" ++ " (" ++ fmtQ 1
         ++ " " ++ "kg" ++ ")") :=
  ⟨handle_add_quantity_resolution_tiers.1 "chocolte" 3 "kg"
     [⟨1, "chocolate", 2, "kg"⟩] ⟨1, "chocolate", 2, "kg"⟩ (16/17)
     (by with_unfolding_all rfl) (by with_unfolding_all rfl) (by norm_num)
     (by with_unfolding_all rfl) (by norm_num),
   handle_add_quantity_resolution_tiers.2.1 "vanil" 1 "pcs"
     [⟨1, "vainilla", 5, "pcs"⟩] ⟨1, "vainilla", 5, "pcs"⟩ (10/13)
     (by with_unfolding_all rfl) (by with_unfolding_all rfl) (by norm_num),
   handle_add_quantity_resolution_tiers.2.2 "zzz" 1 "kg"
     [⟨1, "chocolate", 2, "kg"⟩]
     (by with_unfolding_all rfl) (by with_unfolding_all rfl)
     (by with_unfolding_all decide) (by norm_num) (by with_unfolding_all decide)⟩

/-! ### Normalization output alphabet (for C7) -/

/-- The characters a normalized string can contain: the space separator,
lowercase ASCII letters, and digits. -/
def OutChar (c : Char) : Prop :=
  c = ' ' ∨ (97 ≤ c.toNat ∧ c.toNat ≤ 122) ∨ (48 ≤ c.toNat ∧ c.toNat ≤ 57)

theorem outChar_toNat_le (c : Char) (h : OutChar c) : c.toNat ≤ 122 := by
  rcases h with rfl | h | h
  · decide
  · exact h.2
  · omega

theorem pyLower_fix (c : Char) (h : OutChar c) : pyLower c = c := by
  have hle : c.toNat ≤ 122 := outChar_toNat_le c h
  have hne : ∀ d : Char, 160 ≤ d.toNat → ¬(c = d) := by
    intro d hd hcd
    subst hcd
    omega
  unfold pyLower
  repeat rw [if_neg (hne _ (by decide))]
  show c.toLower = c
  unfold Char.toLower
  rw [if_neg ?_]
  intro hc
  rcases h with rfl | h2 | h2
  · revert hc; decide
  · omega
  · omega

theorem nfdChar_fix (c : Char) (h : OutChar c) : nfdChar c = [c] := by
  have hle : c.toNat ≤ 122 := outChar_toNat_le c h
  have hne : ∀ d : Char, 160 ≤ d.toNat → ¬(c = d) := by
    intro d hd hcd
    subst hcd
    omega
  unfold nfdChar
  repeat rw [if_neg (hne _ (by decide))]

theorem isMn_out (c : Char) (h : OutChar c) : isMn c = false := by
  have hle : c.toNat ≤ 122 := outChar_toNat_le c h
  simp only [isMn, Bool.and_eq_false_iff, decide_eq_false_iff_not]
  left
  omega

theorem isKeep_out (c : Char) (h : OutChar c) : isKeep c = true := by
  rcases h with rfl | h | h
  · decide
  · simp only [isKeep, Bool.or_eq_true, Bool.and_eq_true, decide_eq_true_eq]
    exact Or.inl (Or.inl h)
  · simp only [isKeep, Bool.or_eq_true, Bool.and_eq_true, decide_eq_true_eq]
    exact Or.inl (Or.inr h)

theorem isPySpace_out (c : Char) (h : OutChar c) (hs : c ≠ ' ') :
    isPySpace c = false := by
  rcases h with rfl | h | h
  · exact absurd rfl hs
  all_goals
  · simp only [isPySpace, List.mem_cons, List.not_mem_nil, or_false,
      decide_eq_false_iff_not, not_or]
    refine ⟨?_, ?_, ?_, ?_, ?_, ?_, ?_, ?_, ?_, ?_, ?_, ?_, ?_, ?_, ?_, ?_, ?_,
      ?_, ?_, ?_, ?_, ?_, ?_, ?_, ?_, ?_, ?_, ?_, ?_⟩ <;>
      (intro hc; subst hc; revert h; decide)

/-- Characters surviving the `[a-z0-9\s]` filter that are not whitespace
are lowercase letters or digits. -/
theorem isKeep_not_space_outChar (c : Char) (hk : isKeep c = true)
    (hs : isPySpace c = false) : OutChar c := by
  simp only [isKeep, Bool.or_eq_true, Bool.and_eq_true, decide_eq_true_eq] at hk
  rcases hk with (h | h) | h
  · exact Or.inr (Or.inl h)
  · exact Or.inr (Or.inr h)
  · rw [h] at hs; exact Bool.noConfusion hs

theorem map_id_of_fix {α : Type} {l : List α} {f : α → α}
    (h : ∀ c ∈ l, f c = c) : l.map f = l := by
  induction l with
  | nil => rfl
  | cons c l ih =>
    rw [List.map_cons, h c (List.mem_cons_self c l),
      ih (fun x hx => h x (List.mem_cons_of_mem c hx))]

theorem flatMap_singleton_of_fix {α : Type} {l : List α} {f : α → List α}
    (h : ∀ c ∈ l, f c = [c]) : l.flatMap f = l := by
  induction l with
  | nil => rfl
  | cons c l ih =>
    rw [List.flatMap_cons, h c (List.mem_cons_self c l),
      ih (fun x hx => h x (List.mem_cons_of_mem c hx))]
    rfl

theorem foldr_wordsAux_word (w : List Char) (hw : ∀ c ∈ w, isPySpace c = false)
    (a : List Char) (as : List (List Char)) :
    w.foldr wordsAux (a :: as) = (w ++ a) :: as := by
  induction w with
  | nil => rfl
  | cons c w ih =>
    have hc := hw c (List.mem_cons_self c w)
    rw [List.foldr_cons, ih (fun x hx => hw x (List.mem_cons_of_mem c hx))]
    unfold wordsAux
    rw [if_neg (by rw [hc]; exact Bool.false_ne_true)]
    rfl

theorem foldr_wordsAux_word_nil (w : List Char)
    (hw : ∀ c ∈ w, isPySpace c = false) :
    w.foldr wordsAux [] = if w = [] then [] else [w] := by
  induction w with
  | nil => rfl
  | cons c w ih =>
    have hc := hw c (List.mem_cons_self c w)
    rw [List.foldr_cons, ih (fun x hx => hw x (List.mem_cons_of_mem c hx))]
    by_cases hwnil : w = []
    · subst hwnil
      unfold wordsAux
      rw [if_pos rfl, if_neg (by rw [hc]; exact Bool.false_ne_true),
        if_neg (List.cons_ne_nil c [])]
    · rw [if_neg hwnil, if_neg (List.cons_ne_nil c w)]
      unfold wordsAux
      rw [if_neg (by rw [hc]; exact Bool.false_ne_true)]

theorem intercalate_cons₂ {α : Type} (sep : List α) (w w' : List α)
    (rest : List (List α)) :
    List.intercalate sep (w :: w' :: rest) =
      w ++ sep ++ List.intercalate sep (w' :: rest) := by
  simp [List.intercalate, List.intersperse_cons_cons]

theorem intercalate_single {α : Type} (sep : List α) (w : List α) :
    List.intercalate sep [w] = w := by
  simp [List.intercalate]

theorem foldr_wordsAux_intercalate (ws : List (List Char))
    (h : ∀ w ∈ ws, w ≠ [] ∧ ∀ c ∈ w, isPySpace c = false) :
    (List.intercalate [' '] ws).foldr wordsAux [] = ws := by
  induction ws with
  | nil => rfl
  | cons w ws ih =>
    cases ws with
    | nil =>
      rw [intercalate_single]
      rw [foldr_wordsAux_word_nil w (h w (List.mem_cons_self w [])).2,
        if_neg (h w (List.mem_cons_self w [])).1]
    | cons w' rest =>
      rw [intercalate_cons₂, List.foldr_append, List.foldr_append]
      rw [ih (fun x hx => h x (List.mem_cons_of_mem w hx))]
      have hacc : List.foldr wordsAux (w' :: rest) [' '] = [] :: w' :: rest := by
        show wordsAux ' ' (w' :: rest) = [] :: w' :: rest
        unfold wordsAux
        rw [if_pos (by decide)]
      rw [hacc, foldr_wordsAux_word w (h w (List.mem_cons_self w _)).2,
        List.append_nil]

theorem wordsOf_intercalate (ws : List (List Char))
    (h : ∀ w ∈ ws, w ≠ [] ∧ ∀ c ∈ w, isPySpace c = false) :
    wordsOf (List.intercalate [' '] ws) = ws := by
  unfold wordsOf
  rw [foldr_wordsAux_intercalate ws h]
  apply List.filter_eq_self.mpr
  intro w hw
  have := (h w hw).1
  simp_all [List.isEmpty_iff]

theorem mem_foldr_wordsAux (l : List Char) :
    ∀ w ∈ l.foldr wordsAux [], ∀ c ∈ w, isPySpace c = false ∧ c ∈ l := by
  induction l with
  | nil => intro w hw; exact absurd hw (List.not_mem_nil w)
  | cons d l ih =>
    intro w hw c hc
    rw [List.foldr_cons] at hw
    by_cases hd : isPySpace d = true
    · rw [show wordsAux d (List.foldr wordsAux [] l) = [] :: List.foldr wordsAux [] l
          from by unfold wordsAux; rw [if_pos hd]] at hw
      rcases List.mem_cons.mp hw with rfl | hw'
      · exact absurd hc (List.not_mem_nil c)
      · obtain ⟨h1, h2⟩ := ih w hw' c hc
        exact ⟨h1, List.mem_cons_of_mem d h2⟩
    · have hd' : isPySpace d = false := by
        revert hd; cases isPySpace d <;> simp
      cases hR : l.foldr wordsAux [] with
      | nil =>
        rw [show wordsAux d (List.foldr wordsAux [] l) = [[d]]
            from by rw [hR]; unfold wordsAux; rw [if_neg hd]] at hw
        rcases List.mem_cons.mp hw with rfl | hw'
        · rcases List.mem_cons.mp hc with rfl | hc'
          · exact ⟨hd', List.mem_cons_self c l⟩
          · exact absurd hc' (List.not_mem_nil c)
        · exact absurd hw' (List.not_mem_nil w)
      | cons w₀ ws =>
        rw [show wordsAux d (List.foldr wordsAux [] l) = (d :: w₀) :: ws
            from by rw [hR]; unfold wordsAux; rw [if_neg hd]] at hw
        rcases List.mem_cons.mp hw with rfl | hw'
        · rcases List.mem_cons.mp hc with rfl | hc'
          · exact ⟨hd', List.mem_cons_self c l⟩
          · obtain ⟨h1, h2⟩ := ih w₀ (hR ▸ List.mem_cons_self w₀ ws) c hc'
            exact ⟨h1, List.mem_cons_of_mem d h2⟩
        · obtain ⟨h1, h2⟩ := ih w (hR ▸ List.mem_cons_of_mem w₀ hw') c hc
          exact ⟨h1, List.mem_cons_of_mem d h2⟩

theorem mem_wordsOf (l : List Char) (w : List Char) (hw : w ∈ wordsOf l) :
    w ≠ [] ∧ ∀ c ∈ w, isPySpace c = false ∧ c ∈ l := by
  unfold wordsOf at hw
  obtain ⟨hw', hne⟩ := List.mem_filter.mp hw
  refine ⟨?_, mem_foldr_wordsAux l w hw'⟩
  intro h
  subst h
  simp at hne

theorem mem_intercalate_space (ws : List (List Char)) (c : Char)
    (hc : c ∈ List.intercalate [' '] ws) : c = ' ' ∨ ∃ w ∈ ws, c ∈ w := by
  induction ws with
  | nil => simp [List.intercalate] at hc
  | cons w ws ih =>
    cases ws with
    | nil =>
      rw [intercalate_single] at hc
      exact Or.inr ⟨w, List.mem_cons_self w [], hc⟩
    | cons w' rest =>
      rw [intercalate_cons₂] at hc
      rcases List.mem_append.mp hc with h1 | h2
      · rcases List.mem_append.mp h1 with h3 | h4
        · exact Or.inr ⟨w, List.mem_cons_self w _, h3⟩
        · left
          rcases List.mem_cons.mp h4 with rfl | h5
          · rfl
          · exact absurd h5 (List.not_mem_nil c)
      · rcases ih h2 with h3 | ⟨w₂, hw₂, hcw₂⟩
        · exact Or.inl h3
        · exact Or.inr ⟨w₂, List.mem_cons_of_mem w hw₂, hcw₂⟩

theorem mem_cleanedOf_keep (s : String) (c : Char) (hc : c ∈ cleanedOf s) :
    isKeep c = true :=
  (List.mem_filter.mp hc).2

theorem normalize_string_outChar (s : String) :
    ∀ c ∈ (normalize_string s).data, OutChar c := by
  intro c hc
  by_cases hs : s = ""
  · subst hs
    exact absurd hc (List.not_mem_nil c)
  · unfold normalize_string at hc
    rw [if_neg hs] at hc
    rcases mem_intercalate_space _ c hc with rfl | ⟨w, hw, hcw⟩
    · exact Or.inl rfl
    · have h2 := (mem_wordsOf _ w hw).2 c hcw
      exact isKeep_not_space_outChar c (mem_cleanedOf_keep s c h2.2) h2.1

theorem cleanedOf_of_outChar (r : String) (h : ∀ c ∈ r.data, OutChar c) :
    cleanedOf r = r.data := by
  have h1 : r.data.map pyLower = r.data :=
    map_id_of_fix (fun c hc => pyLower_fix c (h c hc))
  have h2 : r.data.flatMap nfdChar = r.data :=
    flatMap_singleton_of_fix (fun c hc => nfdChar_fix c (h c hc))
  have h3 : r.data.filter (fun c => !isMn c) = r.data :=
    List.filter_eq_self.mpr (fun c hc => by rw [isMn_out c (h c hc)]; rfl)
  have h4 : r.data.filter isKeep = r.data :=
    List.filter_eq_self.mpr (fun c hc => isKeep_out c (h c hc))
  unfold cleanedOf
  rw [h1, h2, h3, h4]

/-- C7: string normalization is idempotent — normalizing a normalized
string changes nothing — it never fails (it is a total function by
construction), and it maps the empty string to the empty string. -/
theorem normalize_string_idempotent_total :
    (∀ s : String, normalize_string (normalize_string s) = normalize_string s) ∧
    normalize_string "" = "" := by
  refine ⟨?_, rfl⟩
  intro s
  by_cases hs : s = ""
  · subst hs; rfl
  · by_cases hr : normalize_string s = ""
    · rw [hr]
      rfl
    · have hout : ∀ c ∈ (normalize_string s).data, OutChar c :=
        normalize_string_outChar s
      have hdata : (normalize_string s).data =
          List.intercalate [' '] (wordsOf (cleanedOf s)) := by
        unfold normalize_string
        rw [if_neg hs]
      conv_lhs => rw [normalize_string]
      rw [if_neg hr, cleanedOf_of_outChar _ hout, hdata,
        wordsOf_intercalate _ (fun w hw =>
          ⟨(mem_wordsOf _ w hw).1, fun c hc => ((mem_wordsOf _ w hw).2 c hc).1⟩)]
      conv_rhs => rw [normalize_string]
      rw [if_neg hs]

/-! ### Self-similarity of the `SequenceMatcher` (for C6)

On two identical sequences the dynamic programming of
`find_longest_match` keeps its best block on the diagonal: the diagonal
entry of row `i` equals `runLen b i`, the run of consecutive non-popular
positions ending at `i`, and every off-diagonal chain ending at row `i`
is bounded by the run length of its own column, which an earlier
diagonal entry already offered to `best`.  The backward and forward
extension loops then stretch the diagonal best block across popular
characters to the whole sequence, so `find_longest_match` returns
`(0, 0, b.length)` and the ratio is `1` whether or not `autojunk`
dropped anything. -/

theorem b2j_eq (b : List Char) (c : Char) :
    b2j b c = if isPopular b c then [] else positionsOf b c := rfl

theorem runLen_of_not_popular (b : List Char) (i : Nat)
    (h : isPopular b (b.getD i ' ') = false) :
    runLen b i = prevRun b i + 1 := by
  cases i with
  | zero =>
    simp only [runLen]
    rw [h]
    simp [prevRun]
  | succ n =>
    simp only [runLen]
    rw [h]
    simp [prevRun]

theorem runLen_popular (b : List Char) (i : Nat)
    (h : isPopular b (b.getD i ' ') = true) : runLen b i = 0 := by
  cases i with
  | zero =>
    simp only [runLen]
    rw [h]
    simp
  | succ n =>
    simp only [runLen]
    rw [h]
    simp

theorem runLen_pred (b : List Char) (j : Nat) (hj : 0 < j)
    (h : isPopular b (b.getD j ' ') = false) :
    runLen b j = runLen b (j - 1) + 1 := by
  cases j with
  | zero => omega
  | succ n =>
    simp only [runLen]
    rw [h]
    simp

theorem prevRun_succ (b : List Char) (i : Nat) :
    prevRun b (i + 1) = runLen b i := by
  simp [prevRun]

theorem runLen_le (b : List Char) : ∀ i, runLen b i ≤ i + 1 := by
  intro i
  induction i with
  | zero =>
    simp only [runLen]
    split <;> omega
  | succ n ih =>
    simp only [runLen]
    split <;> omega

theorem positionsOf_decomp (b : List Char) (i : Nat) (hi : i < b.length) :
    ∃ pre post, positionsOf b (b.getD i ' ') = pre ++ i :: post ∧
      (∀ j ∈ pre, j < i ∧ b.getD j ' ' = b.getD i ' ') ∧
      (∀ j ∈ post, (i < j ∧ j < b.length) ∧ b.getD j ' ' = b.getD i ' ') := by
  have h2 : (b.length - i) + i = b.length := by omega
  have hsplit : List.range b.length = List.range' 0 i ++ List.range' i (b.length - i) := by
    have h3 := List.range'_append_1 0 i (b.length - i)
    rw [Nat.zero_add, h2] at h3
    rw [List.range_eq_range', ← h3]
  have hsub : b.length - i = (b.length - i - 1) + 1 := by omega
  unfold positionsOf
  rw [hsplit, hsub, List.range'_succ, List.filter_append, List.filter_cons,
    if_pos (by simp)]
  refine ⟨_, _, rfl, ?_, ?_⟩
  · intro j hj
    have h₁ := (List.mem_filter.mp hj).1
    have h₂ := (List.mem_filter.mp hj).2
    rw [List.mem_range'] at h₁
    obtain ⟨k, hk, rfl⟩ := h₁
    refine ⟨by omega, ?_⟩
    simpa using h₂
  · intro j hj
    have h₁ := (List.mem_filter.mp hj).1
    have h₂ := (List.mem_filter.mp hj).2
    rw [List.mem_range'] at h₁
    obtain ⟨k, hk, rfl⟩ := h₁
    refine ⟨⟨by omega, by omega⟩, ?_⟩
    simpa using h₂

theorem innerLoopA (b : List Char) (i : Nat) (hin : i < b.length)
    (hpop : isPopular b (b.getD i ' ') = false)
    (j2len : Nat → Nat) (hU : ∀ x, j2len x ≤ prevRun b i)
    (hW : ∀ x, j2len x ≤ runLen b x)
    (bi bs : Nat) (hB : ∀ x, x < i → runLen b x ≤ bs) :
    ∀ (js : List Nat), (∀ j ∈ js, j < i ∧ b.getD j ' ' = b.getD i ' ') →
    ∀ (rest : List Nat) (newj2len : Nat → Nat),
      (∀ x, newj2len x ≤ runLen b i) → (∀ x, newj2len x ≤ runLen b x) →
      ∃ new', innerLoop 0 b.length i j2len (js ++ rest) newj2len (bi, bi, bs) =
          innerLoop 0 b.length i j2len rest new' (bi, bi, bs) ∧
        (∀ x, new' x ≤ runLen b i) ∧ (∀ x, new' x ≤ runLen b x) := by
  intro js
  induction js with
  | nil =>
    intro _ rest newj2len h1 h2
    exact ⟨newj2len, rfl, h1, h2⟩
  | cons j js ih =>
    intro hjs rest newj2len h1 h2
    obtain ⟨hji, hjc⟩ := hjs j (List.mem_cons_self j js)
    have hpopj : isPopular b (b.getD j ' ') = false := by rw [hjc]; exact hpop
    have hkj : (if j = 0 then 0 else j2len (j - 1)) + 1 ≤ runLen b j := by
      by_cases hj0 : j = 0
      · subst hj0
        rw [if_pos rfl, runLen_of_not_popular b 0 hpopj]
        simp [prevRun]
      · rw [if_neg hj0, runLen_pred b j (by omega) hpopj]
        have := hW (j - 1)
        omega
    have hki : (if j = 0 then 0 else j2len (j - 1)) + 1 ≤ runLen b i := by
      rw [runLen_of_not_popular b i hpop]
      by_cases hj0 : j = 0
      · rw [if_pos hj0]; omega
      · rw [if_neg hj0]
        have := hU (j - 1)
        omega
    have hkbs : (if j = 0 then 0 else j2len (j - 1)) + 1 ≤ bs :=
      le_trans hkj (hB j hji)
    have hstep : innerLoop 0 b.length i j2len (j :: (js ++ rest)) newj2len (bi, bi, bs) =
        innerLoop 0 b.length i j2len (js ++ rest)
          (fun x => if x = j then (if j = 0 then 0 else j2len (j - 1)) + 1 else newj2len x)
          (bi, bi, bs) := by
      simp only [innerLoop]
      rw [if_neg (show ¬(j < 0) by omega), if_neg (show ¬(b.length ≤ j) by omega),
        if_neg (show ¬(bs < (if j = 0 then 0 else j2len (j - 1)) + 1) by omega)]
    rw [List.cons_append, hstep]
    exact ih (fun x hx => hjs x (List.mem_cons_of_mem j hx)) rest _
      (fun x => by
        by_cases hxj : x = j
        · simp only [hxj, if_pos rfl]; exact hki
        · simp only [if_neg hxj]; exact h1 x)
      (fun x => by
        by_cases hxj : x = j
        · rw [hxj, if_pos rfl]; exact hkj
        · simp only [if_neg hxj]; exact h2 x)

theorem innerLoopB (b : List Char) (i : Nat)
    (hpop : isPopular b (b.getD i ' ') = false)
    (j2len : Nat → Nat) (hU : ∀ x, j2len x ≤ prevRun b i)
    (hW : ∀ x, j2len x ≤ runLen b x)
    (bi bs : Nat) (hbs : runLen b i ≤ bs) :
    ∀ (js : List Nat), (∀ j ∈ js, (i < j ∧ j < b.length) ∧ b.getD j ' ' = b.getD i ' ') →
    ∀ (newj2len : Nat → Nat),
      (∀ x, newj2len x ≤ runLen b i) → (∀ x, newj2len x ≤ runLen b x) →
      newj2len i = runLen b i →
      ∃ new', innerLoop 0 b.length i j2len js newj2len (bi, bi, bs) =
          (new', (bi, bi, bs)) ∧
        (∀ x, new' x ≤ runLen b i) ∧ (∀ x, new' x ≤ runLen b x) ∧
        new' i = runLen b i := by
  intro js
  induction js with
  | nil =>
    intro _ newj2len h1 h2 h3
    exact ⟨newj2len, rfl, h1, h2, h3⟩
  | cons j js ih =>
    intro hjs newj2len h1 h2 h3
    obtain ⟨⟨hij, hjn⟩, hjc⟩ := hjs j (List.mem_cons_self j js)
    have hpopj : isPopular b (b.getD j ' ') = false := by rw [hjc]; exact hpop
    have hj0 : ¬(j = 0) := by omega
    have hki : (if j = 0 then 0 else j2len (j - 1)) + 1 ≤ runLen b i := by
      rw [if_neg hj0, runLen_of_not_popular b i hpop]
      have := hU (j - 1)
      omega
    have hkj : (if j = 0 then 0 else j2len (j - 1)) + 1 ≤ runLen b j := by
      rw [if_neg hj0, runLen_pred b j (by omega) hpopj]
      have := hW (j - 1)
      omega
    have hstep : innerLoop 0 b.length i j2len (j :: js) newj2len (bi, bi, bs) =
        innerLoop 0 b.length i j2len js
          (fun x => if x = j then (if j = 0 then 0 else j2len (j - 1)) + 1 else newj2len x)
          (bi, bi, bs) := by
      simp only [innerLoop]
      rw [if_neg (show ¬(j < 0) by omega), if_neg (show ¬(b.length ≤ j) by omega),
        if_neg (show ¬(bs < (if j = 0 then 0 else j2len (j - 1)) + 1) by omega)]
    rw [hstep]
    exact ih (fun x hx => hjs x (List.mem_cons_of_mem j hx)) _
      (fun x => by
        by_cases hxj : x = j
        · simp only [hxj, if_pos rfl]; exact hki
        · simp only [if_neg hxj]; exact h1 x)
      (fun x => by
        by_cases hxj : x = j
        · rw [hxj, if_pos rfl]; exact hkj
        · simp only [if_neg hxj]; exact h2 x)
      (by rw [if_neg (show ¬(i = j) by omega)]; exact h3)

theorem innerLoopRow (b : List Char) (i : Nat) (hin : i < b.length)
    (hpop : isPopular b (b.getD i ' ') = false)
    (j2len : Nat → Nat) (hU : ∀ x, j2len x ≤ prevRun b i)
    (hW : ∀ x, j2len x ≤ runLen b x)
    (hD : 0 < i → j2len (i - 1) = runLen b (i - 1))
    (bi bs : Nat) (hB : ∀ x, x < i → runLen b x ≤ bs) (hbis : bi + bs ≤ i) :
    ∃ new' bi' bs',
      innerLoop 0 b.length i j2len (positionsOf b (b.getD i ' ')) (fun _ => 0)
          (bi, bi, bs) = (new', (bi', bi', bs')) ∧
        (∀ x, new' x ≤ runLen b i) ∧ (∀ x, new' x ≤ runLen b x) ∧
        new' i = runLen b i ∧
        (∀ x, x < i + 1 → runLen b x ≤ bs') ∧ bi' + bs' ≤ i + 1 ∧ bs ≤ bs' := by
  obtain ⟨pre, post, hdecomp, hpre, hpost⟩ := positionsOf_decomp b i hin
  obtain ⟨new₁, heqA, ha1, ha2⟩ :=
    innerLoopA b i hin hpop j2len hU hW bi bs hB pre hpre (i :: post) (fun _ => 0)
      (fun x => Nat.zero_le _) (fun x => Nat.zero_le _)
  rw [hdecomp, heqA]
  have hkdiag : (if i = 0 then 0 else j2len (i - 1)) + 1 = runLen b i := by
    rw [runLen_of_not_popular b i hpop]
    by_cases hi0 : i = 0
    · rw [if_pos hi0, hi0]
      simp [prevRun]
    · rw [if_neg hi0, hD (by omega)]
      simp [prevRun, hi0]
  have hA : ∀ x, (if x = i then runLen b i else new₁ x) ≤ runLen b i := by
    intro x
    by_cases hxi : x = i
    · rw [if_pos hxi]
    · rw [if_neg hxi]; exact ha1 x
  have hAx : ∀ x, (if x = i then runLen b i else new₁ x) ≤ runLen b x := by
    intro x
    by_cases hxi : x = i
    · rw [hxi, if_pos rfl]
    · rw [if_neg hxi]; exact ha2 x
  have hC : (if i = i then runLen b i else new₁ i) = runLen b i := by
    rw [if_pos rfl]
  by_cases hlt : bs < runLen b i
  · have hstep : innerLoop 0 b.length i j2len (i :: post) new₁ (bi, bi, bs) =
        innerLoop 0 b.length i j2len post
          (fun x => if x = i then (if i = 0 then 0 else j2len (i - 1)) + 1 else new₁ x)
          (i + 1 - ((if i = 0 then 0 else j2len (i - 1)) + 1),
           i + 1 - ((if i = 0 then 0 else j2len (i - 1)) + 1),
           (if i = 0 then 0 else j2len (i - 1)) + 1) := by
      simp only [innerLoop]
      rw [if_neg (show ¬(i < 0) by omega), if_neg (show ¬(b.length ≤ i) by omega),
        if_pos (show bs < (if i = 0 then 0 else j2len (i - 1)) + 1 by omega)]
    rw [hstep, hkdiag]
    obtain ⟨new₂, heqB, hc1, hc2, hc3⟩ :=
      innerLoopB b i hpop j2len hU hW (i + 1 - runLen b i) (runLen b i)
        (Nat.le_refl _) post hpost _ hA hAx hC
    rw [heqB]
    refine ⟨new₂, _, _, rfl, hc1, hc2, hc3, ?_, ?_, ?_⟩
    · intro x hx
      rcases (by omega : x < i ∨ x = i) with h | h
      · have := hB x h
        omega
      · rw [h]
    · have := runLen_le b i
      omega
    · omega
  · have hstep : innerLoop 0 b.length i j2len (i :: post) new₁ (bi, bi, bs) =
        innerLoop 0 b.length i j2len post
          (fun x => if x = i then (if i = 0 then 0 else j2len (i - 1)) + 1 else new₁ x)
          (bi, bi, bs) := by
      simp only [innerLoop]
      rw [if_neg (show ¬(i < 0) by omega), if_neg (show ¬(b.length ≤ i) by omega),
        if_neg (show ¬(bs < (if i = 0 then 0 else j2len (i - 1)) + 1) by omega)]
    rw [hstep, hkdiag]
    obtain ⟨new₂, heqB, hc1, hc2, hc3⟩ :=
      innerLoopB b i hpop j2len hU hW bi bs (by omega) post hpost _ hA hAx hC
    rw [heqB]
    refine ⟨new₂, bi, bs, rfl, hc1, hc2, hc3, ?_, by omega, Nat.le_refl bs⟩
    intro x hx
    rcases (by omega : x < i ∨ x = i) with h | h
    · exact hB x h
    · rw [h]
      omega

theorem outerLoop_inv (b : List Char) :
    ∀ (t i : Nat), i + t = b.length →
    ∀ (j2len : Nat → Nat) (bi bs : Nat),
      (∀ x, j2len x ≤ prevRun b i) → (∀ x, j2len x ≤ runLen b x) →
      (0 < i → j2len (i - 1) = runLen b (i - 1)) →
      (∀ x, x < i → runLen b x ≤ bs) → bi + bs ≤ i →
      ∃ bi' bs', outerLoop b (b2j b) 0 b.length (List.range' i t) j2len (bi, bi, bs) =
          (bi', bi', bs') ∧ bi' + bs' ≤ b.length := by
  intro t
  induction t with
  | zero =>
    intro i hi j2len bi bs _ _ _ _ hbis
    exact ⟨bi, bs, rfl, by omega⟩
  | succ t ih =>
    intro i hi j2len bi bs hU hW hD hB hbis
    have hin : i < b.length := by omega
    rw [List.range'_succ]
    cases hpop : isPopular b (b.getD i ' ')
    · have hbj : b2j b (b.getD i ' ') = positionsOf b (b.getD i ' ') := by
        rw [b2j_eq, if_neg (by rw [hpop]; simp)]
      obtain ⟨new', bi', bs', heq, h1, h2, h3, hB', hbis', hmono⟩ :=
        innerLoopRow b i hin hpop j2len hU hW hD bi bs hB hbis
      have hstep : outerLoop b (b2j b) 0 b.length (i :: List.range' (i + 1) t) j2len
          (bi, bi, bs) =
          outerLoop b (b2j b) 0 b.length (List.range' (i + 1) t) new'
            (bi', bi', bs') := by
        simp only [outerLoop]
        rw [hbj, heq]
      rw [hstep]
      exact ih (i + 1) (by omega) new' bi' bs'
        (fun x => by rw [prevRun_succ]; exact h1 x) h2
        (fun _ => by simpa using h3) hB' hbis'
    · have hbj : b2j b (b.getD i ' ') = [] := by rw [b2j_eq, if_pos hpop]
      have hstep : outerLoop b (b2j b) 0 b.length (i :: List.range' (i + 1) t) j2len
          (bi, bi, bs) =
          outerLoop b (b2j b) 0 b.length (List.range' (i + 1) t) (fun _ => 0)
            (bi, bi, bs) := by
        simp only [outerLoop]
        rw [hbj]
        rfl
      rw [hstep]
      refine ih (i + 1) (by omega) (fun _ => 0) bi bs (fun x => Nat.zero_le _)
        (fun x => Nat.zero_le _) (fun _ => by simpa using (runLen_popular b i hpop).symm)
        ?_ (by omega)
      intro x hx
      rcases (by omega : x < i ∨ x = i) with h | h
      · exact hB x h
      · rw [h, runLen_popular b i hpop]
        omega

theorem extendBack_diag (b : List Char) : ∀ (d s : Nat),
    extendBack b b 0 0 d d s = (0, 0, s + d) := by
  intro d
  induction d with
  | zero =>
    intro s
    rfl
  | succ d ih =>
    intro s
    have hcond : (0 < d + 1 && 0 < d + 1 && b.getD d ' ' == b.getD (d + 1 - 1) ' ')
        = true := by
      simp
    simp only [extendBack]
    rw [if_pos hcond, Nat.add_sub_cancel]
    have harith : s + 1 + d = s + (d + 1) := by omega
    rw [ih (s + 1), harith]

theorem extendForward_diag (b : List Char) : ∀ (rem s : Nat), s + rem = b.length →
    extendForwardLen b b b.length 0 0 rem s = b.length := by
  intro rem
  induction rem with
  | zero =>
    intro s hs
    simp only [extendForwardLen]
    omega
  | succ rem ih =>
    intro s hs
    have hcond : (0 + s < b.length && b.getD (0 + s) ' ' == b.getD (0 + s) ' ')
        = true := by
      simp
      omega
    simp only [extendForwardLen]
    rw [if_pos hcond]
    exact ih (s + 1) (by omega)

theorem find_longest_match_self (b : List Char) :
    find_longest_match b b (b2j b) 0 b.length 0 b.length = (0, 0, b.length) := by
  obtain ⟨bi, bs, hm, hle⟩ :=
    outerLoop_inv b b.length 0 (by omega) (fun _ => 0) 0 0
      (fun x => Nat.zero_le _) (fun x => Nat.zero_le _)
      (fun h => absurd h (Nat.lt_irrefl 0))
      (fun x hx => absurd hx (Nat.not_lt_zero x)) (by omega)
  simp only [find_longest_match, Nat.sub_zero, hm, extendBack_diag b bi bs,
    Nat.zero_add]
  rw [extendForward_diag b (b.length - (bs + bi)) (bs + bi) (by omega)]

theorem matchingTotal_nil (a b : List Char) (bj : Char → List Nat) :
    ∀ (fuel acc : Nat), matchingTotal a b bj fuel [] acc = acc := by
  intro fuel acc
  cases fuel <;> rfl

theorem ratio_self (b : List Char) : ratio b b = 1 := by
  unfold ratio
  by_cases h0 : b.length = 0
  · rw [if_pos (by omega)]
  · rw [if_neg (by omega)]
    have hstep : matchingTotal b b (b2j b) (2 * (b.length + b.length) + 1)
        [(0, b.length, 0, b.length)] 0 = b.length := by
      conv_lhs => rw [matchingTotal]
      simp only [find_longest_match_self b]
      rw [if_neg h0, if_neg (by simp), if_neg (by simp)]
      simp only [List.nil_append]
      rw [matchingTotal_nil, Nat.zero_add]
    rw [hstep, Rat.mkRat_eq_div]
    have hQ : (b.length : ℚ) ≠ 0 := by
      exact_mod_cast h0
    push_cast
    field_simp
    ring

/-- C6: `similarity(s, s)` equals `1.0` — amended: this holds for every
non-empty string; at the empty string the falsy-input guard of
`calculate_similarity` returns `0.0` instead of `1.0`. -/
theorem calculate_similarity_self (s : String) (hs : s ≠ "") :
    calculate_similarity s s = 1 := by
  unfold calculate_similarity
  rw [if_neg (by simp [hs])]
  exact ratio_self _

/-- C6 counterexample: at the empty string `calculate_similarity`
returns `0`, not `1`, because of the falsy-input guard. -/
theorem calculate_similarity_self_counterexample :
    calculate_similarity "" "" = 0 ∧ (0 : ℚ) ≠ 1 := by
  constructor
  · with_unfolding_all rfl
  · norm_num

theorem calculate_similarity_self_witness :
    calculate_similarity "azucar" "azucar" = 1 :=
  calculate_similarity_self "azucar" (by decide)

end FFS
